import Mathlib

/-!
Verification of the book-clipper plugin core (src/main.ts) against its
specification.  Strings are modelled as `List Char` (`Str`); each JS regular
expression used by the code is embedded as an explicit decidable matcher with
the same test semantics (unanchored search, case-insensitive where the source
uses the `i` flag).
-/

set_option maxHeartbeats 1000000
set_option maxRecDepth 10000

abbrev Str := List Char

/-- Lowercase an ASCII letter; other characters unchanged (models the effect
of a case-insensitive regex on the subject string). -/
def lowerChar (c : Char) : Char :=
  if 'A' ≤ c ∧ c ≤ 'Z' then Char.ofNat (c.toNat + 32) else c

def lowerStr (s : Str) : Str := s.map lowerChar

def isAsciiLower (c : Char) : Bool := decide ('a' ≤ c ∧ c ≤ 'z')

def isDigitCh (c : Char) : Bool := decide ('0' ≤ c ∧ c ≤ '9')

/-- Character class `[a-z0-9]` on an already lowercased subject; together with
lowercasing this models `[A-Z0-9]` under the `i` flag. -/
def isAlnumLower (c : Char) : Bool := isAsciiLower c || isDigitCh c

/-- Consume the literal `p` at the head of `s`, returning the remainder. -/
def eatLit : Str → Str → Option Str
  | [], s => some s
  | _ :: _, [] => none
  | c :: p, d :: s => if c = d then eatLit p s else none

/-- Does `f` hold at some position (suffix) of the string?  This models the
unanchored scan a JS `RegExp.test` performs. -/
def anyPos (f : Str → Bool) : Str → Bool
  | [] => f []
  | c :: cs => f (c :: cs) || anyPos f cs

/-- Substring containment, via a prefix test at every position. -/
def listContains (s p : Str) : Bool := anyPos (fun r => p.isPrefixOf r) s

-- ---------------------------------------------------------------------------
-- detectSource (src/main.ts lines 190-210)
-- ---------------------------------------------------------------------------

/-- Alternation `(com|co\.[a-z]{2}|[a-z]{2})` after `amazon\.`; all ways the
alternation can match, each with its remainder (regex `test` succeeds if any
continuation succeeds). -/
def amazonDomainAlts (s : Str) : List Str :=
  (match eatLit "com".toList s with | some r => [r] | none => []) ++
  (match eatLit "co.".toList s with
   | some (a :: b :: rest) => if isAsciiLower a && isAsciiLower b then [rest] else []
   | _ => []) ++
  (match s with
   | a :: b :: rest => if isAsciiLower a && isAsciiLower b then [rest] else []
   | _ => [])

/-- Alternation `(gp\/product|exec\/obidos\/asin|dp|asin|o\/ASIN)` (lowercased,
matching the `i` flag). -/
def amazonPathAlts (s : Str) : List Str :=
  (match eatLit "gp/product".toList s with | some r => [r] | none => []) ++
  (match eatLit "exec/obidos/asin".toList s with | some r => [r] | none => []) ++
  (match eatLit "dp".toList s with | some r => [r] | none => []) ++
  (match eatLit "asin".toList s with | some r => [r] | none => []) ++
  (match eatLit "o/asin".toList s with | some r => [r] | none => [])

/-- Ten characters of `[A-Z0-9]` (on the lowercased subject). -/
def tenAlnum (s : Str) : Bool :=
  decide ((s.take 10).length = 10) && (s.take 10).all isAlnumLower

/-- Pattern `amazon\.(com|co\.[a-z]{2}|[a-z]{2})\/(gp\/product|exec\/obidos\/asin|dp|asin|o\/ASIN)\/([A-Z0-9]{10})` at one position. -/
def amazonPat1At (s : Str) : Bool :=
  match eatLit "amazon.".toList s with
  | none => false
  | some r =>
    (amazonDomainAlts r).any (fun r2 =>
      match r2 with
      | '/' :: r3 =>
        (amazonPathAlts r3).any (fun r4 =>
          match r4 with
          | '/' :: r5 => tenAlnum r5
          | _ => false)
      | _ => false)

/-- Pattern `amzn\.to\/` at one position. -/
def amznToAt (s : Str) : Bool := (eatLit "amzn.to/".toList s).isSome

/-- Pattern `a\.co\/[a-zA-Z0-9]+` at one position. -/
def aCoAt (s : Str) : Bool :=
  match eatLit "a.co/".toList s with
  | some (c :: _) => isAlnumLower c
  | _ => false

/-- Characters a JS `.` (without the `s` flag) does not match. -/
def isLineTerm (c : Char) : Bool :=
  c = '\n' || c = '\r' || c = Char.ofNat 0x2028 || c = Char.ofNat 0x2029

/-- Scan for `[&?]asin=([A-Z0-9]{10})` reachable through `.*` (which cannot
cross a line terminator). -/
def asinQueryScan : Str → Bool
  | [] => false
  | c :: cs =>
    if isLineTerm c then false
    else
      ((c = '&' || c = '?') &&
        (match eatLit "asin=".toList cs with
         | some r => tenAlnum r
         | none => false)) || asinQueryScan cs

/-- Pattern `amazon\.(com|co\.[a-z]{2}|[a-z]{2})\/.*[&?]asin=([A-Z0-9]{10})` at one position. -/
def amazonPat4At (s : Str) : Bool :=
  match eatLit "amazon.".toList s with
  | none => false
  | some r =>
    (amazonDomainAlts r).any (fun r2 =>
      match r2 with
      | '/' :: r3 => asinQueryScan r3
      | _ => false)

/-- The four Amazon URL patterns of `detectSource`, tried in order. -/
def amazonTest (url : Str) : Bool :=
  anyPos amazonPat1At (lowerStr url) || anyPos amznToAt (lowerStr url) ||
    anyPos aCoAt (lowerStr url) || anyPos amazonPat4At (lowerStr url)

def taaghcheTest (url : Str) : Bool :=
  anyPos (fun r => (eatLit "taaghche.com/book/".toList r).isSome) (lowerStr url)

def fidiboTest (url : Str) : Bool :=
  anyPos (fun r =>
    match eatLit "fidibo.com/".toList r with
    | some r2 =>
      (match eatLit "books/".toList r2 with | some _ => true | none => false) ||
      (match eatLit "book/".toList r2 with | some _ => true | none => false)
    | none => false) (lowerStr url)

def goodreadsTest (url : Str) : Bool :=
  anyPos (fun r => (eatLit "goodreads.com/book/show/".toList r).isSome) (lowerStr url)

/-- Embedding of `detectSource` (src/main.ts lines 190-210): the Amazon
patterns are tried first; the remaining sites are tried in the insertion
order of the pattern table (taaghche, fidibo, goodreads); `null` becomes
`none`. -/
def detectSource (url : Str) : Option String :=
  if amazonTest url then some "amazon"
  else if taaghcheTest url then some "taaghche"
  else if fidiboTest url then some "fidibo"
  else if goodreadsTest url then some "goodreads"
  else none

-- ---------------------------------------------------------------------------
-- Whitespace, trimming and collapsing (JS `trim` and `replace(/\s+/g, ' ')`)
-- ---------------------------------------------------------------------------

/-- Whitespace characters relevant to the JS `\s` class and `trim` on the
strings this code handles. -/
def isWsB (c : Char) : Bool :=
  c = ' ' || c = '\t' || c = '\n' || c = '\r' || c = Char.ofNat 0x0b || c = Char.ofNat 0x0c

def rtrimWs (s : Str) : Str := (s.reverse.dropWhile isWsB).reverse

/-- JS `String.prototype.trim`. -/
def jsTrim (s : Str) : Str := rtrimWs (s.dropWhile isWsB)

/-- Worker for `collapseWs`; the flag records whether the scan is inside a
whitespace run whose replacement space has already been emitted. -/
def collapseWsAux : Bool → Str → Str
  | _, [] => []
  | inRun, c :: cs =>
    if isWsB c then
      if inRun then collapseWsAux true cs else ' ' :: collapseWsAux true cs
    else c :: collapseWsAux false cs

/-- JS `replace(/\s+/g, ' ')`: every maximal whitespace run becomes one space. -/
def collapseWs (s : Str) : Str := collapseWsAux false s

-- ---------------------------------------------------------------------------
-- BookData records (src/main.ts lines 16-29) and the four return literals
-- ---------------------------------------------------------------------------

/-- The `BookData` interface: `title`..`cover` are required strings, the
rest are optional (`field?: string`), modelled with `Option`. -/
structure BookData where
  title : Str
  author : Str
  pages : Str
  cover : Str
  publisher : Option Str
  translator : Option Str
  datepublished : Option Str
  language : Option Str
  isbn : Option Str
  url : Option Str
  description : Option Str
  summary : Option Str

/-- JS `a || ''` on strings: the empty string is falsy. -/
def jsOrStr (a b : Str) : Str := if a = [] then b else a

/-- JS `x?.y...?.z || ''` where the chain may be undefined. -/
def jsOrOpt (o : Option Str) : Str :=
  match o with
  | none => []
  | some s => jsOrStr s []

/-- Return literal of the taaghche branch (src/main.ts lines 458-469),
parameterized by the extracted upstream values.  `numberOfPages` models the
truthiness test `workExample.numberOfPages ? String(..) : ''`.  Note the
literal has no `isbn` field. -/
def taaghcheReturn (name author : Str) (numberOfPages : Option Int)
    (image publisherName translator datePublished inLanguage canonicalUrl
     description : Str) : BookData :=
  { title := jsOrStr name []
    author := author
    pages := match numberOfPages with
      | some n => if n ≠ 0 then (toString n).toList else []
      | none => []
    cover := jsOrStr image []
    publisher := some (jsOrStr publisherName [])
    translator := some (jsOrStr translator [])
    datepublished := some (jsOrStr datePublished [])
    language := some (jsOrStr inLanguage [])
    isbn := none
    url := some canonicalUrl
    description := some description
    summary := none }

/-- Return literal of the fidibo branch (src/main.ts lines 507-518); each
parameter is the optional result of the corresponding selector/text chain.
Note the literal has no `isbn` field. -/
def fidiboReturn (titleText authorText pagesMatch coverSrc publisherText
    translatorText dateText langText : Option Str)
    (fidiboUrl description : Str) : BookData :=
  { title := jsOrOpt titleText
    author := jsOrOpt authorText
    pages := jsOrOpt pagesMatch
    cover := jsOrOpt coverSrc
    publisher := some (jsOrOpt publisherText)
    translator := some (jsOrOpt translatorText)
    datepublished := some (jsOrOpt dateText)
    language := some (jsOrOpt langText)
    isbn := none
    url := some fidiboUrl
    description := some description
    summary := none }

/-- Return literal of the goodreads branch (src/main.ts lines 653-665);
`isbn` is `isbn || jsonLd.isbn || ''` and `translator` is the literal `''`. -/
def goodreadsReturn (name author : Str) (numberOfPages : Option Int)
    (image publisher datepublished isbn jsonLdIsbn inLanguage canonicalUrl
     description : Str) : BookData :=
  { title := jsOrStr name []
    author := author
    pages := match numberOfPages with
      | some n => if n ≠ 0 then (toString n).toList else []
      | none => []
    cover := jsOrStr image []
    publisher := some publisher
    translator := some []
    datepublished := some datepublished
    isbn := some (jsOrStr isbn (jsOrStr jsonLdIsbn []))
    language := some (jsOrStr inLanguage [])
    url := some canonicalUrl
    description := some description
    summary := none }

/-- Return literal of the amazon branch (src/main.ts lines 820-832). -/
def amazonReturn (title author pages cover publisher translator datepublished
    language isbn canonicalUrl : Str) : BookData :=
  { title := jsOrStr title []
    author := author
    pages := pages
    cover := cover
    publisher := some publisher
    translator := some translator
    datepublished := some datepublished
    language := some language
    isbn := some isbn
    url := some canonicalUrl
    description := some []
    summary := none }

-- ---------------------------------------------------------------------------
-- The fallback-chain extraction idiom (C6)
-- ---------------------------------------------------------------------------

/-- Result of `el.textContent?.trim()... || ''` for one matched element:
`none` models a null `textContent`. -/
def textOrEmpty (norm : Str → Str) (txt : Option Str) : Str :=
  match txt with
  | none => []
  | some s => norm s

/-- The shared fallback-chain loop of the site adapters: a document is a map
from CSS selector to `none` (no element) or `some txt` (first element with
its nullable text); the loop keeps the first normalized non-empty text and
otherwise falls through, ending at the empty string. -/
def fallbackChainLoop (norm : Str → Str) (doc : String → Option (Option Str)) :
    List String → Str
  | [] => []
  | sel :: rest =>
    match doc sel with
    | none => fallbackChainLoop norm doc rest
    | some txt =>
      let t := textOrEmpty norm txt
      if t = [] then fallbackChainLoop norm doc rest else t

/-- Amazon title selectors (src/main.ts lines 680-687); the loop normalizes
with `trim().replace(/\s+/g, ' ')`. -/
def amazonTitleSelectors : List String :=
  ["#productTitle", "span#productTitle", "h1#title", ".product-title",
   ".a-size-medium", "h1.a-size-large"]

def amazonTitleChain (doc : String → Option (Option Str)) : Str :=
  fallbackChainLoop (fun s => collapseWs (jsTrim s)) doc amazonTitleSelectors

/-- Goodreads description selectors (src/main.ts lines 608-622); the loop
normalizes with `trim()` only. -/
def goodreadsDescSelectors : List String :=
  ["[data-testid=\"description\"]", ".BookPageMetadataSection__description",
   "div[data-automation-id=\"bookDescription\"]", "div#bookDescription",
   ".read-more-content", ".truncatedText", "div#descriptionContainer",
   "div.descriptionContainer", ".BookPageDescriptionSection",
   ".BookDescriptionSection", ".Description", "[class*=\"description\"]",
   "[class*=\"Description\"]"]

def goodreadsDescChain (doc : String → Option (Option Str)) : Str :=
  fallbackChainLoop jsTrim doc goodreadsDescSelectors

/-- One rule of the chain as a pure document query (element missing and null
text both yield the empty string). -/
def extractRule (norm : Str → Str) (doc : String → Option (Option Str))
    (sel : String) : Str :=
  match doc sel with
  | none => []
  | some txt => textOrEmpty norm txt

/-- Modelled from the spec: the fallback chain "returns the first non-empty
trimmed result among N ordered rules; if all rules yield empty, returns empty
string".  This is the specification-side definition compared against the
source loop. -/
def specFirstNonEmpty (vals : List Str) : Str :=
  match vals.find? (fun v => !v.isEmpty) with
  | some v => v
  | none => []

-- ---------------------------------------------------------------------------
-- formatDateFromTimestamp (src/main.ts lines 278-287)
-- ---------------------------------------------------------------------------

/-- JS `String(n).padStart(2, '0')`. -/
def pad2 (n : Int) : Str :=
  let s := (toString n).toList
  if s.length < 2 then '0' :: s else s

/-- Civil calendar date (year, month 1-12, day 1-31) from a day count since
the Unix epoch — the calendar computation behind the JS `Date` accessors
`getFullYear`/`getMonth`/`getDate` (standard days-to-civil algorithm; `tdiv`
is the C-style truncating division the algorithm is stated with). -/
def civilFromDays (z0 : Int) : Int × Int × Int :=
  let z := z0 + 719468
  let era : Int := (if 0 ≤ z then z else z - 146096).tdiv 146097
  let doe := z - era * 146097
  let yoe := (doe - doe.tdiv 1460 + doe.tdiv 36524 - doe.tdiv 146096).tdiv 365
  let y := yoe + era * 400
  let doy := doe - (365 * yoe + yoe.tdiv 4 - yoe.tdiv 100)
  let mp := (5 * doy + 2).tdiv 153
  let d := doy - (153 * mp + 2).tdiv 5 + 1
  let m := mp + (if mp < 10 then 3 else -9)
  (y + (if m ≤ 2 then 1 else 0), m, d)

/-- Embedding of `formatDateFromTimestamp`: the guard
`if (!timestamp || isNaN(timestamp)) return ''`, then `new Date(timestamp)`
read through the local-calendar accessors (the host's timezone offset, in
minutes, is an explicit parameter), zero-padding month and day.  The `/` here
is Euclidean division, which is floor division for the positive divisor. -/
def formatDateFromTimestamp (tzOffsetMin : Int) (ts : Int) : Str :=
  if ts = 0 then []
  else
    match civilFromDays ((ts + tzOffsetMin * 60000) / 86400000) with
    | (y, m, d) => (toString y).toList ++ '-' :: pad2 m ++ '-' :: pad2 d

-- ---------------------------------------------------------------------------
-- Amazon title cleanup (src/main.ts lines 699-704)
-- ---------------------------------------------------------------------------

def aposCh : Char := Char.ofNat 39

/-- The keyword alternatives of the category regex
`\s*\([^)]*(?:Bird Books|Books for|Humor Books|Gift Books|Children's Books|Teen & Young Adult|Education & Reference)[^)]*\)\s*`. -/
def catKeywords : List Str :=
  ["Bird Books".toList, "Books for".toList, "Humor Books".toList,
   "Gift Books".toList, "Children".toList ++ aposCh :: "s Books".toList,
   "Teen & Young Adult".toList, "Education & Reference".toList]

/-- `[^)]*(?:keyword)[^)]*` succeeds on a parenthetical content iff the content
contains one of the keywords (case-insensitively, for the `i` flag). -/
def containsKeyword (content : Str) : Bool :=
  catKeywords.any (fun k => listContains (lowerStr content) (lowerStr k))

/-- Shared shape of the two title-cleanup regexes at one position:
optional whitespace, `(`, a `)`-free content up to the first `)`, then a
content/remainder check supplied by the concrete pattern.  Returns the
remainder of the string after the whole match. -/
def parenCore (check : Str → Str → Option Str) (s : Str) : Option Str :=
  let t := s.dropWhile isWsB
  if t.head? = some '(' then
    let r2 := t.tail
    if (r2.dropWhile (fun d => d ≠ ')')).isEmpty then none
    else check (r2.takeWhile (fun d => d ≠ ')')) ((r2.dropWhile (fun d => d ≠ ')')).tail)
  else none

/-- Matcher of `\s*\([^)]*(?:…keywords…)[^)]*\)\s*` (first cleanup regex,
not anchored, not global: only the leftmost occurrence is removed). -/
def catParenAt : Str → Option Str :=
  parenCore (fun content r4 =>
    if containsKeyword content then some (r4.dropWhile isWsB) else none)

/-- Matcher of `\s*\([^)]{30,}\)\s*$` (second cleanup regex, anchored at the
end of the string). -/
def longParenAt : Str → Option Str :=
  parenCore (fun content r4 =>
    if 30 ≤ content.length ∧ r4.dropWhile isWsB = [] then some [] else none)

/-- JS non-global `replace(re, '')`: drop the leftmost match, keep the
scanned part and the remainder. -/
def replaceFirstBy (m : Str → Option Str) : Str → Str
  | [] => []
  | c :: cs =>
    match m (c :: cs) with
    | some rem => rem
    | none => c :: replaceFirstBy m cs

/-- Embedding of the Amazon title cleanup (src/main.ts lines 699-704):
inside `if (title)`, strip the leftmost keyword parenthetical and trim,
then strip a trailing parenthetical of 30+ characters and trim. -/
def amazonTitleCleanup (title : Str) : Str :=
  if title = [] then title
  else jsTrim (replaceFirstBy longParenAt (jsTrim (replaceFirstBy catParenAt title)))

-- ---------------------------------------------------------------------------
-- Goodreads hydration-payload traversal (src/main.ts lines 532-555, 569-586)
-- ---------------------------------------------------------------------------

/-- JS primitive values; `pdate`, `pregexp` and `pfunc` stand for the opaque
leaves the guard rejects (`instanceof Date`, `instanceof RegExp`,
`typeof === 'function'`): the traversal treats them exactly like primitives
(it returns null on them without visiting their contents). -/
inductive JsPrim where
  | undf
  | pnull
  | pstr (s : String)
  | pnum (n : Int)
  | pbool (b : Bool)
  | pdate
  | pregexp
  | pfunc
deriving DecidableEq

/-- A JS value is a primitive or a reference into the heap of objects;
references model JS object identity, which is what the `visited` set tracks. -/
inductive JsVal where
  | prim (p : JsPrim)
  | ref (id : Nat)
deriving DecidableEq

/-- A heap object: an array or a plain object with ordered fields. -/
inductive JsObj where
  | arr (elems : List JsVal)
  | obj (fields : List (String × JsVal))
deriving DecidableEq

abbrev Heap := List JsObj

/-- Property read `o.k` (undefined on arrays and missing keys). -/
def objField (o : JsObj) (k : String) : JsVal :=
  match o with
  | .arr _ => .prim .undf
  | .obj fs =>
    match fs.find? (fun f => f.1 = k) with
    | some f => f.2
    | none => .prim .undf

/-- JS `o.k !== undefined`. -/
def fieldDefined (o : JsObj) (k : String) : Bool :=
  objField o k ≠ JsVal.prim JsPrim.undf

/-- The shape predicate of `findBookDetails`:
`obj.__typename === 'BookDetails' || (obj.publisher !== undefined &&
obj.publicationTime !== undefined && (obj.format !== undefined ||
obj.numPages !== undefined || obj.asin !== undefined))`. -/
def isBookDetails (o : JsObj) : Bool :=
  (match objField o "__typename" with
   | .prim (.pstr s) => s = "BookDetails"
   | _ => false) ||
  (fieldDefined o "publisher" && fieldDefined o "publicationTime" &&
    (fieldDefined o "format" || fieldDefined o "numPages" || fieldDefined o "asin"))

/-- The `details`-first descent guard
`obj.details && typeof obj.details === 'object'`: only an object reference is
descended into (descending into an opaque leaf would return null anyway). -/
def detailsChild (o : JsObj) : Option Nat :=
  match objField o "details" with
  | .ref id => some id
  | _ => none

/-- `Array.isArray(obj) ? obj : Object.values(obj)`. -/
def childVals (o : JsObj) : List JsVal :=
  match o with
  | .arr es => es
  | .obj fs => fs.map (fun f => f.2)

/-- The hit test of `findDescription`: `obj.description && typeof
obj.description === 'string' && obj.description.length > 50`. -/
def descriptionHit (o : JsObj) : Option String :=
  match objField o "description" with
  | .prim (.pstr s) => if 50 < s.length then some s else none
  | _ => none

mutual
/-- Fueled embedding of the recursive search skeleton shared by
`findBookDetails` and `findDescription`: the guard returns null on
non-objects, opaque leaves and already-visited nodes; otherwise the node is
added to the (mutable, shared) visited set, tested with `found`, optionally
descended into `details` first, and finally its children are searched in
order.  `none` means the fuel ran out; the claim theorem shows heap-size
fuel always suffices. -/
def travNode (heap : Heap) (found : Nat → JsObj → Option A) (useDet : Bool) :
    Nat → List Nat → JsVal → Option (Option A × List Nat)
  | 0, _, _ => none
  | _ + 1, vis, .prim _ => some (none, vis)
  | fuel + 1, vis, .ref id =>
    if id ∈ vis then some (none, vis)
    else
      match heap[id]? with
      | none => some (none, vis)
      | some o =>
        let vis1 := id :: vis
        match found id o with
        | some a => some (some a, vis1)
        | none =>
          match (if useDet then detailsChild o else none) with
          | some d =>
            match travNode heap found useDet fuel vis1 (.ref d) with
            | none => none
            | some (some a, vis2) => some (some a, vis2)
            | some (none, vis2) => travList heap found useDet fuel vis2 (childVals o)
          | none => travList heap found useDet fuel vis1 (childVals o)
termination_by fuel _ _ => (fuel, 0, 0)

/-- Iteration of `for (const item of items)` threading the shared visited
set and returning on the first hit. -/
def travList (heap : Heap) (found : Nat → JsObj → Option A) (useDet : Bool) :
    Nat → List Nat → List JsVal → Option (Option A × List Nat)
  | _, vis, [] => some (none, vis)
  | fuel, vis, v :: vs =>
    match travNode heap found useDet fuel vis v with
    | none => none
    | some (some a, vis2) => some (some a, vis2)
    | some (none, vis2) => travList heap found useDet fuel vis2 vs
termination_by fuel _ l => (fuel, 1, l.length)
end

/-- `findBookDetails` (src/main.ts lines 532-555). -/
def findBookDetails (heap : Heap) (fuel : Nat) (v : JsVal) :
    Option (Option Nat × List Nat) :=
  travNode heap (fun id o => if isBookDetails o then some id else none) true fuel [] v

/-- `findDescription` (src/main.ts lines 569-586). -/
def findDescription (heap : Heap) (fuel : Nat) (v : JsVal) :
    Option (Option String × List Nat) :=
  travNode heap (fun _ o => descriptionHit o) false fuel [] v

/-- A one-node heap whose object references itself: a cyclic object graph. -/
def cyclicHeap : Heap := [JsObj.obj [("self", JsVal.ref 0)]]

/-- The count of valid heap ids not yet visited: the traversal measure. -/
def unvis (heap : Heap) (vis : List Nat) : Nat :=
  ((Finset.range heap.length).filter (fun i => i ∉ vis)).card

-- ---------------------------------------------------------------------------
-- fetchSummary (src/main.ts lines 290-411): JSON values and the network
-- ---------------------------------------------------------------------------

/-- JSON-ish runtime values inside API responses (plus `undf` for the result
of a missing property read). -/
inductive JVal where
  | undf
  | jnull
  | jstr (s : Str)
  | jnum (n : Int)
  | jbool (b : Bool)
  | jarr (xs : List JVal)
  | jobj (fs : List (String × JVal))

/-- JS truthiness. -/
def jTruthy : JVal → Bool
  | .undf => false
  | .jnull => false
  | .jstr s => !s.isEmpty
  | .jnum n => n != 0
  | .jbool b => b
  | .jarr _ => true
  | .jobj _ => true

/-- Property read `v.k` on a value known not to be null/undefined (reads on
non-objects yield `undefined`, as in JS). -/
def jGet : JVal → String → JVal
  | .jobj fs, k =>
    (match fs.find? (fun f => f.1 = k) with
     | some f => f.2
     | none => .undf)
  | _, _ => .undf

/-- Optional-chain read `v?.k`. -/
def jGetOpt (v : JVal) (k : String) : JVal :=
  match v with
  | .undf => .undf
  | .jnull => .undf
  | _ => jGet v k

/-- JS `a || b`. -/
def jOr (a b : JVal) : JVal := if jTruthy a then a else b

/-- `v.length > 0` for the array/string values reached by the docs/items
guards (`.length` of anything else is `undefined`, and `undefined > 0` is
false). -/
def jLenPos : JVal → Bool
  | .jarr xs => decide (0 < xs.length)
  | .jstr s => decide (0 < s.length)
  | _ => false

/-- The elements iterated by `for (const x of v)` that can contribute a
result: array elements.  Iterating a string visits one-character strings on
which every property read is `undefined`, so no iteration produces a request
or an early return — observationally the empty iteration. -/
def jElems : JVal → List JVal
  | .jarr xs => xs
  | _ => []

/-- Worker for `stripTags`; the first argument holds (reversed) the pending
characters of a `<`-run that has not met its `>` yet. -/
def stripTagsAux : Str → Str → Str
  | buf, [] => buf.reverse
  | buf, c :: cs =>
    match buf with
    | [] => if c = '<' then stripTagsAux [c] cs else c :: stripTagsAux [] cs
    | _ => if c = '>' then ' ' :: stripTagsAux [] cs else stripTagsAux (c :: buf) cs

/-- JS `replace(/<[^>]*>/g, ' ')`: each maximal `<…>` group (up to the first
`>`) becomes a space; an unclosed `<…` tail stays literal. -/
def stripTags (s : Str) : Str := stripTagsAux [] s

/-- The shared cleanup `replace(/<[^>]*>/g, ' ').replace(/\s+/g, ' ').trim()`. -/
def cleanDesc (s : Str) : Str := jsTrim (collapseWs (stripTags s))

/-- Characters a JS `.` does not match, in the class `[:–—-]` of the subtitle
cut (colon, en dash, em dash, hyphen). -/
def isSepCh (c : Char) : Bool :=
  c = ':' || c = Char.ofNat 0x2013 || c = Char.ofNat 0x2014 || c = '-'

def noLineTerm (s : Str) : Bool := s.all (fun c => !isLineTerm c)

/-- `replace(/[:–—-].*$/, '')`: cut from the leftmost separator whose tail
contains no line terminator (`.`/`$` cannot cross one) to the end. -/
def sepCut : Str → Str
  | [] => []
  | c :: cs => if isSepCh c && noLineTerm cs then [] else c :: sepCut cs

/-- `title.replace(/[:–—-].*$/, '').trim()`. -/
def cleanTitleJS (title : Str) : Str := jsTrim (sepCut title)

/-- `author.split(',')[0].trim()`. -/
def authorTok (author : Str) : Str := jsTrim (author.takeWhile (fun c => c ≠ ','))

/-- `isbn && isbn.length > 5`. -/
def isbnValid : Option Str → Bool
  | some s => decide (5 < s.length)
  | none => false

/-- The Google Books query: by ISBN when a valid ISBN is available, else the
cleaned title plus primary author token. -/
inductive GQuery where
  | qIsbn (isbn : Str)
  | qTA (t a : Str)

/-- The network requests `fetchSummary` can issue, abstracted by endpoint and
the data interpolated into the URL. -/
inductive Req where
  | isbnLookup (isbn : Str)
  | searchTA (t a : Str)
  | workFetch (key : JVal)
  | google (q : GQuery)

/-- A transport outcome: an exception, or a response with a status and the
value of its `.json` accessor (`none` models a body whose JSON parse throws
when `.json` is read). -/
inductive NetResp where
  | throw
  | ok (status : Int) (json : Option JVal)

/-- The network oracle the stages are parameterized over. -/
def Net := Req → NetResp

/-- The per-stage `try`/`catch`: an exception inside the stage body is caught
and the stage reports "found nothing". -/
def catchStage : Except Unit (Option Str) → Option Str
  | .error _ => none
  | .ok r => r

-- ---------------------------------------------------------------------------
-- fetchSummary: the three stages
-- ---------------------------------------------------------------------------

/-- Stage 1 (src/main.ts lines 292-319): Open Library lookup by ISBN.  The
body of the `try` block; `.error` marks a JS exception (transport throw,
`.json` parse throw, or `.replace` on a non-string).  Also returns the
requests issued. -/
def stage1 (net : Net) (isbn : Str) : Except Unit (Option Str) × List Req :=
  let req := Req.isbnLookup isbn
  match net req with
  | .throw => (.error (), [req])
  | .ok st json =>
    if st = 200 then
      match json with
      | none => (.error (), [req])
      | some data =>
        if jTruthy data then
          let d := jGet data "description"
          let description : JVal :=
            if jTruthy d then
              match d with
              | .jstr s => .jstr s
              | _ => jOr (jGet d "value") (.jstr [])
            else .jstr []
          if jTruthy description then
            match description with
            | .jstr s =>
              let c := cleanDesc s
              if 20 < c.length then (.ok (some (jsTrim (c.take 500))), [req])
              else (.ok none, [req])
            | _ => (.error (), [req])
          else (.ok none, [req])
        else (.ok none, [req])
    else (.ok none, [req])

/-- The inner work fetch of stage 2 (src/main.ts lines 341-356), with its own
`try` that leaves the description unchanged on any error; afterwards
`description = workData.description?.value || workData.description || ''`. -/
def workFetchCalc (net : Net) (key : JVal) (d1 : JVal) : JVal × List Req :=
  let wreq := Req.workFetch key
  match net wreq with
  | .throw => (d1, [wreq])
  | .ok st json =>
    if st = 200 then
      match json with
      | none => (d1, [wreq])
      | some wd =>
        if jTruthy wd then
          (jOr (jGetOpt (jGet wd "description") "value")
            (jOr (jGet wd "description") (.jstr [])), [wreq])
        else (d1, [wreq])
    else (d1, [wreq])

/-- The docs loop of stage 2 (src/main.ts lines 336-364):
`description = doc.first_sentence || doc.description || ''`, an array takes
its first element, a missing description triggers the work fetch when
`doc.key` is truthy, and a truthy description must be a string (`.replace`
on anything else throws) whose cleanup longer than 20 characters returns. -/
def docsLoop (net : Net) : List JVal → List Req → Except Unit (Option Str) × List Req
  | [], acc => (.ok none, acc)
  | doc :: rest, acc =>
    let d0 := jOr (jGet doc "first_sentence") (jOr (jGet doc "description") (.jstr []))
    let d1 := match d0 with
      | .jarr xs => jOr (match xs with | x :: _ => x | [] => .undf) (.jstr [])
      | _ => d0
    let key := jGet doc "key"
    let wr := if !jTruthy d1 && jTruthy key then workFetchCalc net key d1 else (d1, [])
    let acc2 := acc ++ wr.2
    if jTruthy wr.1 then
      match wr.1 with
      | .jstr s =>
        let c := cleanDesc s
        if 20 < c.length then (.ok (some (jsTrim (c.take 500))), acc2)
        else docsLoop net rest acc2
      | _ => (.error (), acc2)
    else docsLoop net rest acc2

/-- Stage 2 (src/main.ts lines 321-369): Open Library search by cleaned title
and first author token, scanning the first three docs. -/
def stage2 (net : Net) (title author : Str) : Except Unit (Option Str) × List Req :=
  let req := Req.searchTA (cleanTitleJS title) (authorTok author)
  match net req with
  | .throw => (.error (), [req])
  | .ok st json =>
    if st = 200 then
      match json with
      | none => (.error (), [req])
      | some data =>
        if jTruthy data then
          let docs := jGet data "docs"
          if jTruthy docs && jLenPos docs then
            docsLoop net ((jElems docs).take 3) [req]
          else (.ok none, [req])
        else (.ok none, [req])
    else (.ok none, [req])

def stage3Query (title author : Str) (isbn : Option Str) : GQuery :=
  if isbnValid isbn then GQuery.qIsbn (isbn.getD [])
  else GQuery.qTA (cleanTitleJS title) (authorTok author)

/-- The items loop of stage 3 (src/main.ts lines 394-403). -/
def itemsLoop : List JVal → Except Unit (Option Str)
  | [] => .ok none
  | item :: rest =>
    let vi := jOr (jGet item "volumeInfo") (.jobj [])
    let d := jOr (jGet vi "description")
      (jOr (jGet vi "summary") (jOr (jGet vi "textSnippet") (.jstr [])))
    if jTruthy d then
      match d with
      | .jstr s =>
        let c := cleanDesc s
        if 20 < c.length then .ok (some (jsTrim (c.take 500)))
        else itemsLoop rest
      | _ => .error ()
    else itemsLoop rest

/-- Stage 3 (src/main.ts lines 371-408): Google Books.  `const data =
response.json` throws on a non-JSON body, and `data.items` throws when the
parsed body is null (the code does not guard `data` here). -/
def stage3 (net : Net) (title author : Str) (isbn : Option Str) :
    Except Unit (Option Str) × List Req :=
  let req := Req.google (stage3Query title author isbn)
  match net req with
  | .throw => (.error (), [req])
  | .ok st json =>
    if st = 200 then
      match json with
      | none => (.error (), [req])
      | some data =>
        match data with
        | .undf => (.error (), [req])
        | .jnull => (.error (), [req])
        | _ =>
          let items := jGet data "items"
          if jTruthy items && jLenPos items then
            (itemsLoop ((jElems items).take 3), [req])
          else (.ok none, [req])
    else (.ok none, [req])

/-- Stages 2 and 3 in order, each behind its own catch, ending at `return ''`. -/
def summaryStages23 (net : Net) (title author : Str) (isbn : Option Str) :
    Str × List Req :=
  let s2 := stage2 net title author
  match catchStage s2.1 with
  | some d => (d, s2.2)
  | none =>
    let s3 := stage3 net title author isbn
    match catchStage s3.1 with
    | some d => (d, s2.2 ++ s3.2)
    | none => ([], s2.2 ++ s3.2)

/-- Embedding of `fetchSummary` (src/main.ts lines 290-411): the by-ISBN stage
runs only for an ISBN longer than 5 characters, each stage is isolated by its
own `try`/`catch`, the first acceptable result returns early, and `''` is the
final fallback.  The second component logs every network request issued. -/
def fetchSummary (net : Net) (title author : Str) (isbn : Option Str) :
    Str × List Req :=
  if isbnValid isbn then
    let s1 := stage1 net (isbn.getD [])
    match catchStage s1.1 with
    | some d => (d, s1.2)
    | none =>
      let s23 := summaryStages23 net title author isbn
      (s23.1, s1.2 ++ s23.2)
  else summaryStages23 net title author isbn

-- ---------------------------------------------------------------------------
-- Template substitution (src/main.ts lines 112-151)
-- ---------------------------------------------------------------------------

def lbCh : Char := Char.ofNat 123

def rbCh : Char := Char.ofNat 125

/-- A placeholder token: two opening braces, the name, two closing braces. -/
def tok (name : Str) : Str := lbCh :: lbCh :: name ++ [rbCh, rbCh]

/-- Expansion of a JS replacement string at one match site: `$$`, `$&`
(the matched text), the dollar-backquote form (the part of the original
input before the match) and the dollar-quote form (the part after it) are
special; anything else after `$` stays literal (the pattern has no capture
groups, so `$1` is kept as-is). -/
def expandRepl (matched pre post : Str) : Str → Str
  | [] => []
  | '$' :: c :: rest =>
    if c = '$' then '$' :: expandRepl matched pre post rest
    else if c = '&' then matched ++ expandRepl matched pre post rest
    else if c = Char.ofNat 96 then pre ++ expandRepl matched pre post rest
    else if c = aposCh then post ++ expandRepl matched pre post rest
    else '$' :: expandRepl matched pre post (c :: rest)
  | c :: rest => c :: expandRepl matched pre post rest

/-- Scan for JS `String.replace` with the `g` flag: at each position try the
pattern; on a match splice the expanded replacement and continue after the
match, otherwise keep the character.  `pre` accumulates the original input
before the current position (for the dollar-backquote expansion); the fuel
only bounds the recursion and is irrelevant once it is at least the length
of the remaining input. -/
def goReplaceF (p r : Str) : Nat → Str → Str → Str
  | 0, _, _ => []
  | _ + 1, _, [] => []
  | fuel + 1, pre, c :: cs =>
    if p.isPrefixOf (c :: cs) && !p.isEmpty then
      expandRepl p pre ((c :: cs).drop p.length) r ++
        goReplaceF p r fuel (pre ++ p) ((c :: cs).drop p.length)
    else c :: goReplaceF p r fuel (pre ++ [c]) cs

/-- JS `s.replace(/pattern/g, r)` for a literal pattern. -/
def replaceAllJS (p r s : Str) : Str := goReplaceF p r s.length [] s

/-- Embedding of `escapeYamlString` (src/main.ts lines 132-136):
`if (!str) return ''` then
`.replace(/\\/g, '\\\\').replace(/"/g, '\\"').replace(/\n/g, ' ').replace(/\r/g, ' ')`. -/
def escapeYamlString (s : Str) : Str :=
  if s.isEmpty then []
  else
    replaceAllJS ['\r'] [' ']
      (replaceAllJS ['\n'] [' ']
        (replaceAllJS ['"'] ['\\', '"']
          (replaceAllJS ['\\'] ['\\', '\\'] s)))

/-- Embedding of the placeholder replacement chain (src/main.ts lines
139-151), in source order; every field is escaped except `pages`, which is
substituted verbatim. -/
def applyTemplate (title author pages cover publisher translator
    datepublished isbn urlv lang description summary : Str)
    (template : Str) : Str :=
  let s1 := replaceAllJS (tok "title".toList) (escapeYamlString title) template
  let s2 := replaceAllJS (tok "author".toList) (escapeYamlString author) s1
  let s3 := replaceAllJS (tok "pages".toList) pages s2
  let s4 := replaceAllJS (tok "cover".toList) (escapeYamlString cover) s3
  let s5 := replaceAllJS (tok "publisher".toList) (escapeYamlString publisher) s4
  let s6 := replaceAllJS (tok "translator".toList) (escapeYamlString translator) s5
  let s7 := replaceAllJS (tok "datepublished".toList) (escapeYamlString datepublished) s6
  let s8 := replaceAllJS (tok "ISBN".toList) (escapeYamlString isbn) s7
  let s9 := replaceAllJS (tok "url".toList) (escapeYamlString urlv) s8
  let s10 := replaceAllJS (tok "language".toList) (escapeYamlString lang) s9
  let s11 := replaceAllJS (tok "description".toList) (escapeYamlString description) s10
  replaceAllJS (tok "summary".toList) (escapeYamlString summary) s11

/-- A template decomposed into pieces: literal text, a placeholder token,
or an already-substituted value. -/
inductive TPiece where
  | lit (s : Str)
  | tokP (name : Str)
  | val (s : Str)

def renderPiece : TPiece → Str
  | .lit s => s
  | .tokP n => tok n
  | .val s => s

def render (ps : List TPiece) : Str := (ps.map renderPiece).flatten

/-- The default template (src/main.ts lines 113-128) as its pieces: the
literal text between placeholders, in source order. -/
def defaultTemplatePieces : List TPiece :=
  [.lit "---\ntitle: \"".toList, .tokP "title".toList,
   .lit "\"\nauthor: \"".toList, .tokP "author".toList,
   .lit "\"\ntranslator: \"".toList, .tokP "translator".toList,
   .lit "\"\npages: ".toList, .tokP "pages".toList,
   .lit "\ncover: \"".toList, .tokP "cover".toList,
   .lit "\"\npublisher: \"".toList, .tokP "publisher".toList,
   .lit "\"\ndatepublished: \"".toList, .tokP "datepublished".toList,
   .lit "\"\nISBN: \"".toList, .tokP "ISBN".toList,
   .lit "\"\nurl: \"".toList, .tokP "url".toList,
   .lit "\"\nlanguage: \"".toList, .tokP "language".toList,
   .lit "\"\ndescription: \"".toList, .tokP "description".toList,
   .lit "\"\nsummary: \"".toList, .tokP "summary".toList,
   .lit "\"\n---\n\n".toList]

def defaultTemplate : Str := render defaultTemplatePieces

/-- The twelve placeholder names the replacement chain substitutes. -/
def templateTokenNames : List Str :=
  ["title".toList, "author".toList, "translator".toList, "pages".toList,
   "cover".toList, "publisher".toList, "datepublished".toList, "ISBN".toList,
   "url".toList, "language".toList, "description".toList, "summary".toList]

def braceFreeB (s : Str) : Bool := s.all (fun c => c ≠ lbCh && c ≠ rbCh)

def dollarFreeB (s : Str) : Bool := s.all (fun c => c ≠ '$')

/-- The pattern and `w` disagree at some aligned position (within their
common length); then the pattern cannot match at the start of `w ++ y` for
any `y`. -/
def mismatchW (p w : Str) : Bool := (p.zip w).any (fun pr => pr.1 ≠ pr.2)

/-- The pattern matches at no position inside `other` (for any continuation). -/
def allMismatch (p other : Str) : Bool :=
  (List.range other.length).all (fun k => mismatchW p (other.drop k))

/-- A piece through which `replace` of the token `name` scans predictably:
literal text either brace-free or admitting no match start, another token
(the one being replaced, or one the pattern cannot match into), or a
brace-free substituted value. -/
def pieceOKB (name : Str) : TPiece → Bool
  | .lit s => allMismatch (tok name) s || braceFreeB s
  | .tokP n => decide (n = name) || allMismatch (tok name) (tok n)
  | .val s => braceFreeB s

/-- The action of one substitution pass on a piece. -/
def substPiece (name r : Str) : TPiece → TPiece
  | .tokP n => if n = name then .val r else .tokP n
  | p => p

/-- Character-level view of `escapeYamlString` on a non-empty string. -/
def escYamlChar (c : Char) : Str :=
  if c = '\\' then ['\\', '\\']
  else if c = '"' then ['\\', '"']
  else if c = '\n' then [' ']
  else if c = '\r' then [' ']
  else [c]

/-- Safety of a value inside a YAML double-quoted scalar: no raw newline or
carriage return, no unescaped double quote, every backslash followed by a
character it escapes. -/
def yamlSafeB : Str → Bool
  | [] => true
  | c :: cs =>
    if c = '\n' then false
    else if c = '\r' then false
    else if c = '\\' then
      match cs with
      | [] => false
      | _ :: rest => yamlSafeB rest
    else if c = '"' then false
    else yamlSafeB cs

/-- Concatenated per-character expansion (the semantics of a global
single-character `replace`). -/
def catMap (g : Char → Str) : Str → Str
  | [] => []
  | c :: cs => g c ++ catMap g cs

/-- Per-character action of the first `escapeYamlString` pass (backslash). -/
def escG1 (c : Char) : Str := if c = '\\' then ['\\', '\\'] else [c]

/-- Per-character action of the second `escapeYamlString` pass (quote). -/
def escG2 (c : Char) : Str := if c = '"' then ['\\', '"'] else [c]

/-- Per-character action of the third `escapeYamlString` pass (newline). -/
def escG3 (c : Char) : Str := if c = '\n' then [' '] else [c]

/-- Per-character action of the fourth `escapeYamlString` pass (CR). -/
def escG4 (c : Char) : Str := if c = '\r' then [' '] else [c]

/-- The default template after all twelve replacement passes, with the
replacement values (in the order of the passes of `applyTemplate`) placed
in their template slots. -/
def finalPieces (v1 v2 v3 v4 v5 v6 v7 v8 v9 v10 v11 v12 : Str) : List TPiece :=
  [.lit "---\ntitle: \"".toList, .val v1,
   .lit "\"\nauthor: \"".toList, .val v2,
   .lit "\"\ntranslator: \"".toList, .val v6,
   .lit "\"\npages: ".toList, .val v3,
   .lit "\ncover: \"".toList, .val v4,
   .lit "\"\npublisher: \"".toList, .val v5,
   .lit "\"\ndatepublished: \"".toList, .val v7,
   .lit "\"\nISBN: \"".toList, .val v8,
   .lit "\"\nurl: \"".toList, .val v9,
   .lit "\"\nlanguage: \"".toList, .val v10,
   .lit "\"\ndescription: \"".toList, .val v11,
   .lit "\"\nsummary: \"".toList, .val v12,
   .lit "\"\n---\n\n".toList]

-- ---------------------------------------------------------------------------
-- Basic lemmas about the scanning combinators
-- ---------------------------------------------------------------------------

theorem eatLit_isSome (p : Str) : ∀ s : Str, (eatLit p s).isSome = p.isPrefixOf s := by
  induction p with
  | nil => intro s; simp [eatLit, List.isPrefixOf]
  | cons c p ih =>
    intro s
    cases s with
    | nil => simp [eatLit, List.isPrefixOf]
    | cons d s =>
      by_cases h : c = d
      · simp [eatLit, List.isPrefixOf, h, ih]
      · simp [eatLit, List.isPrefixOf, h, Ne.symm h]

theorem eatLit_self_append (p : Str) : ∀ s : Str, eatLit p (p ++ s) = some s := by
  induction p with
  | nil => intro s; simp [eatLit]
  | cons c p ih => intro s; simp [eatLit, ih]

theorem anyPos_congr (f g : Str → Bool) (h : ∀ r, f r = g r) :
    ∀ s : Str, anyPos f s = anyPos g s := by
  intro s
  induction s with
  | nil => simp [anyPos, h]
  | cons c cs ih => simp [anyPos, h, ih]

theorem anyPos_of_suffix (f : Str → Bool) (y : Str) (hy : f y = true) :
    ∀ x : Str, anyPos f (x ++ y) = true := by
  intro x
  induction x with
  | nil =>
    cases y with
    | nil => simpa [anyPos] using hy
    | cons c cs =>
      simp only [List.nil_append, anyPos, Bool.or_eq_true]
      exact Or.inl hy
  | cons c cs ih => simp [anyPos, ih]

theorem lowerStr_append (a b : Str) : lowerStr (a ++ b) = lowerStr a ++ lowerStr b := by
  simp [lowerStr]

theorem isPrefixOf_self_append (p y : Str) : p.isPrefixOf (p ++ y) = true := by
  rw [← eatLit_isSome, eatLit_self_append]
  rfl

theorem listContains_of_split (s p x y : Str) (h : s = x ++ p ++ y) :
    listContains s p = true := by
  subst h
  unfold listContains
  have := anyPos_of_suffix (fun r => p.isPrefixOf r) (p ++ y)
    (isPrefixOf_self_append p y) x
  simpa using this

-- ---------------------------------------------------------------------------
-- Claims C2 and C10: detectSource
-- ---------------------------------------------------------------------------

/-- Claim C2: for every URL matching a supported site's URL shapes,
`detectSource` returns that site's id, with the Amazon patterns tested before
the others (and the non-Amazon sites in table order); for every URL matching
no known pattern it returns `none`; the four example URLs classify as
amazon, amazon, goodreads and none respectively. -/
theorem claim2_detectSource_routing :
    (∀ url : Str, amazonTest url = true → detectSource url = some "amazon") ∧
    (∀ url : Str, taaghcheTest url = true → amazonTest url = false →
        detectSource url = some "taaghche") ∧
    (∀ url : Str, fidiboTest url = true → amazonTest url = false →
        taaghcheTest url = false → detectSource url = some "fidibo") ∧
    (∀ url : Str, goodreadsTest url = true → amazonTest url = false →
        taaghcheTest url = false → fidiboTest url = false →
        detectSource url = some "goodreads") ∧
    (∀ url : Str, amazonTest url = false → taaghcheTest url = false →
        fidiboTest url = false → goodreadsTest url = false →
        detectSource url = none) ∧
    detectSource ("https://www.amazon.com/dp/0134685997".toList) = some "amazon" ∧
    detectSource ("https://a.co/d/abc123".toList) = some "amazon" ∧
    detectSource ("https://www.goodreads.com/book/show/12345.Title".toList) = some "goodreads" ∧
    detectSource ("https://example.com/foo".toList) = none := by
  refine ⟨?_, ?_, ?_, ?_, ?_, by decide, by decide, by decide, by decide⟩
  · intro url h; simp [detectSource, h]
  · intro url h h2; simp [detectSource, h, h2]
  · intro url h h2 h3; simp [detectSource, h, h2, h3]
  · intro url h h2 h3 h4; simp [detectSource, h, h2, h3, h4]
  · intro url h h2 h3 h4; simp [detectSource, h, h2, h3, h4]

/-- Witness for C2: the goodreads clause applied at a concrete URL. -/
theorem claim2_detectSource_routing_witness :
    detectSource ("https://www.goodreads.com/book/show/1.X".toList) = some "goodreads" :=
  claim2_detectSource_routing.2.2.2.1 ("https://www.goodreads.com/book/show/1.X".toList)
    (by decide) (by decide) (by decide) (by decide)

/-- Claim C10: any string containing `amzn.to/`, or containing `a.co/`
immediately followed by an alphanumeric character, is classified as amazon
regardless of its actual host; in particular a URL on the host `ersa.co`
with a non-empty path is classified as amazon. -/
theorem claim10_shortlink_overmatch :
    (∀ url : Str, listContains (lowerStr url) ("amzn.to/".toList) = true →
        detectSource url = some "amazon") ∧
    (∀ url pre post : Str, ∀ c : Char,
        url = pre ++ "a.co/".toList ++ c :: post → isAlnumLower (lowerChar c) = true →
        detectSource url = some "amazon") ∧
    detectSource ("https://ersa.co/page".toList) = some "amazon" := by
  refine ⟨?_, ?_, by decide⟩
  · intro url h
    have hA : anyPos amznToAt (lowerStr url) = true := by
      rw [anyPos_congr amznToAt (fun r => ("amzn.to/".toList).isPrefixOf r)
        (fun r => by rw [amznToAt, eatLit_isSome])]
      exact h
    simp [detectSource, amazonTest, hA]
  · intro url pre post c hurl hc
    have hlit : lowerStr ("a.co/".toList) = "a.co/".toList := by decide
    have hsplit : lowerStr url =
        lowerStr pre ++ (lowerStr ("a.co/".toList) ++ lowerStr (c :: post)) := by
      subst hurl
      rw [lowerStr_append, lowerStr_append, List.append_assoc]
    have hat : aCoAt (lowerStr ("a.co/".toList) ++ lowerStr (c :: post)) = true := by
      rw [hlit]
      have hcons : lowerStr (c :: post) = lowerChar c :: lowerStr post := rfl
      rw [hcons]
      unfold aCoAt
      rw [eatLit_self_append]
      exact hc
    have hB : anyPos aCoAt (lowerStr url) = true := by
      rw [hsplit]
      exact anyPos_of_suffix _ _ hat _
    simp [detectSource, amazonTest, hB]

/-- Witness for C10: both general clauses applied at concrete inputs. -/
theorem claim10_shortlink_overmatch_witness :
    detectSource ("x AMZN.TO/q".toList) = some "amazon" ∧
    detectSource ("https://ersa.co/page".toList) = some "amazon" :=
  ⟨claim10_shortlink_overmatch.1 ("x AMZN.TO/q".toList) (by decide),
   claim10_shortlink_overmatch.2.1 ("https://ersa.co/page".toList)
     ("https://ers".toList) ("age".toList) 'p' (by decide) (by decide)⟩

-- ---------------------------------------------------------------------------
-- Claim C1: shape of returned BookData records
-- ---------------------------------------------------------------------------

/-- Claim C1 counterexample: a record successfully returned by the taaghche
branch of `fetchBookData` has no `isbn` field at all (the return literal at
src/main.ts lines 458-469 omits it), contradicting the claim that every listed
field — `isbn` included — is present as a string in every successfully
returned record. -/
theorem claim1_isbn_absent_cex :
    (taaghcheReturn "A Book".toList "Auth".toList (some 100) "img".toList
      "Pub".toList "Tr".toList "2020".toList "fa".toList "u".toList
      "desc".toList).isbn = none := rfl

/-- Claim C1 (amended): in every successfully returned record the `title` is a
string (defaulting to the empty string) and the fields author, translator,
pages, cover, publisher, datepublished, language, url and description are
present as strings defaulting to the empty string; `isbn`, however, is present
only in goodreads and amazon records and is absent from taaghche and fidibo
records. -/
theorem claim1_record_shape :
    (∀ name author nop image pub tr dp lang curl desc,
      (taaghcheReturn name author nop image pub tr dp lang curl desc).publisher.isSome = true ∧
      (taaghcheReturn name author nop image pub tr dp lang curl desc).translator.isSome = true ∧
      (taaghcheReturn name author nop image pub tr dp lang curl desc).datepublished.isSome = true ∧
      (taaghcheReturn name author nop image pub tr dp lang curl desc).language.isSome = true ∧
      (taaghcheReturn name author nop image pub tr dp lang curl desc).url.isSome = true ∧
      (taaghcheReturn name author nop image pub tr dp lang curl desc).description.isSome = true ∧
      (taaghcheReturn name author nop image pub tr dp lang curl desc).isbn = none) ∧
    (∀ t a p c pub tr d l u desc,
      (fidiboReturn t a p c pub tr d l u desc).publisher.isSome = true ∧
      (fidiboReturn t a p c pub tr d l u desc).translator.isSome = true ∧
      (fidiboReturn t a p c pub tr d l u desc).datepublished.isSome = true ∧
      (fidiboReturn t a p c pub tr d l u desc).language.isSome = true ∧
      (fidiboReturn t a p c pub tr d l u desc).url.isSome = true ∧
      (fidiboReturn t a p c pub tr d l u desc).description.isSome = true ∧
      (fidiboReturn t a p c pub tr d l u desc).isbn = none) ∧
    (∀ name author nop image pub dp isbn jisbn lang curl desc,
      (goodreadsReturn name author nop image pub dp isbn jisbn lang curl desc).publisher.isSome = true ∧
      (goodreadsReturn name author nop image pub dp isbn jisbn lang curl desc).translator.isSome = true ∧
      (goodreadsReturn name author nop image pub dp isbn jisbn lang curl desc).datepublished.isSome = true ∧
      (goodreadsReturn name author nop image pub dp isbn jisbn lang curl desc).language.isSome = true ∧
      (goodreadsReturn name author nop image pub dp isbn jisbn lang curl desc).url.isSome = true ∧
      (goodreadsReturn name author nop image pub dp isbn jisbn lang curl desc).description.isSome = true ∧
      (goodreadsReturn name author nop image pub dp isbn jisbn lang curl desc).isbn.isSome = true) ∧
    (∀ t a p c pub tr d l i u,
      (amazonReturn t a p c pub tr d l i u).publisher.isSome = true ∧
      (amazonReturn t a p c pub tr d l i u).translator.isSome = true ∧
      (amazonReturn t a p c pub tr d l i u).datepublished.isSome = true ∧
      (amazonReturn t a p c pub tr d l i u).language.isSome = true ∧
      (amazonReturn t a p c pub tr d l i u).url.isSome = true ∧
      (amazonReturn t a p c pub tr d l i u).description.isSome = true ∧
      (amazonReturn t a p c pub tr d l i u).isbn.isSome = true) ∧
    (taaghcheReturn [] [] none [] [] [] [] [] [] []).title = [] ∧
    (taaghcheReturn [] [] none [] [] [] [] [] [] []).publisher = some [] ∧
    (goodreadsReturn [] [] none [] [] [] [] [] [] [] []).isbn = some [] := by
  refine ⟨?_, ?_, ?_, ?_, rfl, rfl, rfl⟩
  · intro name author nop image pub tr dp lang curl desc
    exact ⟨rfl, rfl, rfl, rfl, rfl, rfl, rfl⟩
  · intro t a p c pub tr d l u desc
    exact ⟨rfl, rfl, rfl, rfl, rfl, rfl, rfl⟩
  · intro name author nop image pub dp isbn jisbn lang curl desc
    exact ⟨rfl, rfl, rfl, rfl, rfl, rfl, rfl⟩
  · intro t a p c pub tr d l i u
    exact ⟨rfl, rfl, rfl, rfl, rfl, rfl, rfl⟩

-- ---------------------------------------------------------------------------
-- Claim C6: the fallback-chain idiom
-- ---------------------------------------------------------------------------

theorem fallbackChainLoop_eq_spec (norm : Str → Str)
    (doc : String → Option (Option Str)) :
    ∀ sels : List String,
      fallbackChainLoop norm doc sels =
        specFirstNonEmpty (sels.map (extractRule norm doc)) := by
  intro sels
  induction sels with
  | nil => rfl
  | cons sel rest ih =>
    cases hdoc : doc sel with
    | none =>
      have he : extractRule norm doc sel = [] := by simp [extractRule, hdoc]
      simp [fallbackChainLoop, hdoc, specFirstNonEmpty, he, List.find?_cons, ih]
    | some txt =>
      by_cases ht : textOrEmpty norm txt = []
      · have he : extractRule norm doc sel = [] := by simp [extractRule, hdoc, ht]
        simp [fallbackChainLoop, hdoc, ht, specFirstNonEmpty, he, List.find?_cons, ih]
      · have he : extractRule norm doc sel = textOrEmpty norm txt := by
          simp [extractRule, hdoc]
        simp [fallbackChainLoop, hdoc, ht, specFirstNonEmpty, he, List.find?_cons,
          List.isEmpty_iff]

/-- Claim C6: every fallback chain (in particular the Amazon title chain and
the Goodreads description chain) returns the first rule result that is
non-empty after normalization, and the empty string — never null/undefined —
when all rules yield empty. -/
theorem claim6_fallback_chain :
    (∀ (norm : Str → Str) (doc : String → Option (Option Str)) (sels : List String),
        fallbackChainLoop norm doc sels =
          specFirstNonEmpty (sels.map (extractRule norm doc))) ∧
    (∀ doc, amazonTitleChain doc =
        specFirstNonEmpty (amazonTitleSelectors.map
          (extractRule (fun s => collapseWs (jsTrim s)) doc))) ∧
    (∀ doc, goodreadsDescChain doc =
        specFirstNonEmpty (goodreadsDescSelectors.map (extractRule jsTrim doc))) :=
  ⟨fun norm doc sels => fallbackChainLoop_eq_spec norm doc sels,
   fun doc => fallbackChainLoop_eq_spec _ doc amazonTitleSelectors,
   fun doc => fallbackChainLoop_eq_spec _ doc goodreadsDescSelectors⟩

-- ---------------------------------------------------------------------------
-- Claim C9: formatDateFromTimestamp
-- ---------------------------------------------------------------------------

/-- Claim C9: applied to the epoch-millisecond timestamp 1700000000000,
`formatDateFromTimestamp` returns a `YYYY-MM-DD` string built from the local
calendar components of that instant (for every real-world timezone offset the
result is the local calendar day 2023-11-14 or 2023-11-15, zero-padded), and
in general the result is assembled from the civil year, month and day of the
timestamp shifted by the local offset — calendar arithmetic, not string
slicing. -/
theorem claim9_formatDate_local_calendar :
    (∀ tz : Int, -720 ≤ tz → tz ≤ 840 →
      formatDateFromTimestamp tz 1700000000000 = "2023-11-14".toList ∨
      formatDateFromTimestamp tz 1700000000000 = "2023-11-15".toList) ∧
    (∀ tz ts : Int, ts ≠ 0 →
      formatDateFromTimestamp tz ts =
        (toString (civilFromDays ((ts + tz * 60000) / 86400000)).1).toList ++
          '-' :: pad2 (civilFromDays ((ts + tz * 60000) / 86400000)).2.1 ++
          '-' :: pad2 (civilFromDays ((ts + tz * 60000) / 86400000)).2.2) := by
  constructor
  · intro tz h1 h2
    have hlo : (1699956800000 : Int) ≤ 1700000000000 + tz * 60000 := by omega
    have hhi : (1700000000000 : Int) + tz * 60000 ≤ 1700050400000 := by omega
    have d1 : (19675 : Int) ≤ (1700000000000 + tz * 60000) / 86400000 := by
      have := Int.ediv_le_ediv (b := (1700000000000 + tz * 60000)) (c := 86400000)
        (by norm_num) hlo
      simpa using this
    have d2 : (1700000000000 + tz * 60000) / 86400000 ≤ 19676 := by
      have := Int.ediv_le_ediv (a := (1700000000000 + tz * 60000)) (c := 86400000)
        (by norm_num) hhi
      simpa using this
    have hcase : (1700000000000 + tz * 60000) / 86400000 = 19675 ∨
        (1700000000000 + tz * 60000) / 86400000 = 19676 := by omega
    unfold formatDateFromTimestamp
    rcases hcase with h | h
    · left
      rw [if_neg (by norm_num), h]
      decide
    · right
      rw [if_neg (by norm_num), h]
      decide
  · intro tz ts hts
    unfold formatDateFromTimestamp
    rw [if_neg hts]

/-- Witness for C9: the theorem applied at offset 0 (UTC) and at the sample
timestamp. -/
theorem claim9_formatDate_local_calendar_witness :
    (formatDateFromTimestamp 0 1700000000000 = "2023-11-14".toList ∨
     formatDateFromTimestamp 0 1700000000000 = "2023-11-15".toList) ∧
    formatDateFromTimestamp 0 1700000000000 =
      (toString (civilFromDays ((1700000000000 + 0 * 60000) / 86400000)).1).toList ++
        '-' :: pad2 (civilFromDays ((1700000000000 + 0 * 60000) / 86400000)).2.1 ++
        '-' :: pad2 (civilFromDays ((1700000000000 + 0 * 60000) / 86400000)).2.2 :=
  ⟨claim9_formatDate_local_calendar.1 0 (by norm_num) (by norm_num),
   claim9_formatDate_local_calendar.2 0 1700000000000 (by norm_num)⟩

-- ---------------------------------------------------------------------------
-- Claim C8: Amazon title cleanup
-- ---------------------------------------------------------------------------

theorem rtrimWs_eq_rdropWhile (s : Str) : rtrimWs s = List.rdropWhile isWsB s := rfl

theorem rtrimWs_nil : rtrimWs [] = [] := rfl

theorem rtrimWs_eq_nil_iff (s : Str) : rtrimWs s = [] ↔ ∀ x ∈ s, isWsB x = true := by
  rw [rtrimWs_eq_rdropWhile]
  simp [List.rdropWhile_eq_nil_iff]

theorem rtrimWs_cons (c : Char) (bs : Str) :
    rtrimWs (c :: bs) =
      if isWsB c = true ∧ rtrimWs bs = [] then [] else c :: rtrimWs bs := by
  rw [rtrimWs_eq_rdropWhile, rtrimWs_eq_rdropWhile]
  unfold List.rdropWhile
  rw [show (c :: bs).reverse = bs.reverse ++ [c] by simp, List.dropWhile_append]
  by_cases hbs : bs.reverse.dropWhile isWsB = []
  · by_cases hc : isWsB c = true
    · simp [hbs, hc, List.dropWhile_cons]
    · simp [hbs, hc, List.dropWhile_cons]
  · have h2 : ¬ (isWsB c = true ∧ (bs.reverse.dropWhile isWsB).reverse = []) := by
      intro h
      exact hbs (by simpa using h.2)
    simp [hbs, h2]

theorem dropWhile_ws_nil_of_all (s : Str) (h : ∀ x ∈ s, isWsB x = true) :
    s.dropWhile isWsB = [] := by
  simp only [List.dropWhile_eq_nil_iff]
  exact fun a ha => h a ha

theorem lrcomm (s : Str) :
    (rtrimWs s).dropWhile isWsB = rtrimWs (s.dropWhile isWsB) := by
  induction s with
  | nil => rfl
  | cons c t ih =>
    by_cases hc : isWsB c = true
    · rw [rtrimWs_cons]
      by_cases ht : rtrimWs t = []
      · have hall : ∀ x ∈ t, isWsB x = true := (rtrimWs_eq_nil_iff t).mp ht
        have h1 : t.dropWhile isWsB = [] := dropWhile_ws_nil_of_all t hall
        simp [hc, ht, List.dropWhile_cons, h1, rtrimWs_nil]
      · simp only [hc, ht, and_false, if_false, List.dropWhile_cons, if_pos hc]
        rw [ih]
        simp [List.dropWhile_cons, hc]
    · have hc2 : isWsB c = false := by simpa using hc
      rw [rtrimWs_cons]
      simp [hc2, List.dropWhile_cons, rtrimWs_cons]

theorem rtrimWs_idem (s : Str) : rtrimWs (rtrimWs s) = rtrimWs s :=
  List.rdropWhile_idempotent isWsB s

theorem jsTrim_rtrim (s : Str) : jsTrim (rtrimWs s) = jsTrim s := by
  unfold jsTrim
  rw [lrcomm, rtrimWs_idem]

theorem jsTrim_idem (s : Str) : jsTrim (jsTrim s) = jsTrim s := by
  unfold jsTrim
  rw [lrcomm, rtrimWs_idem, List.dropWhile_idempotent]

theorem mem_of_mem_rtrim (s : Str) (x : Char) (h : x ∈ rtrimWs s) : x ∈ s := by
  rw [rtrimWs_eq_rdropWhile] at h
  exact (List.rdropWhile_prefix isWsB s).subset h

theorem mem_of_mem_jsTrim (s : Str) (x : Char) (h : x ∈ jsTrim s) : x ∈ s := by
  unfold jsTrim at h
  exact (List.dropWhile_suffix isWsB).subset (mem_of_mem_rtrim _ x h)

theorem anyPos_append_right (f : Str → Bool) (b : Str) (hb : anyPos f b = true) :
    ∀ a : Str, anyPos f (a ++ b) = true := by
  intro a
  induction a with
  | nil => simpa using hb
  | cons c cs ih => simp [anyPos, ih]

theorem containsKeyword_mono (content c2 x : Str) (h : content = x ++ c2)
    (hk : containsKeyword c2 = true) : containsKeyword content = true := by
  subst h
  unfold containsKeyword at hk ⊢
  simp only [List.any_eq_true] at hk ⊢
  obtain ⟨k, hkmem, hkc⟩ := hk
  refine ⟨k, hkmem, ?_⟩
  unfold listContains at hkc ⊢
  rw [lowerStr_append]
  exact anyPos_append_right _ _ hkc _

theorem parenCore_ws (check : Str → Str → Option Str) (c : Char) (s : Str)
    (h : isWsB c = true) : parenCore check (c :: s) = parenCore check s := by
  unfold parenCore
  rw [List.dropWhile_cons, if_pos h]

theorem parenCore_fail (check : Str → Str → Option Str) (c : Char) (s : Str)
    (h1 : isWsB c = false) (h2 : c ≠ '(') : parenCore check (c :: s) = none := by
  unfold parenCore
  rw [List.dropWhile_cons]
  simp [h1, h2]

theorem scanParen (content r : Str) (hc : ')' ∉ content) :
    (content ++ ')' :: r).takeWhile (fun d => d ≠ ')') = content ∧
    (content ++ ')' :: r).dropWhile (fun d => d ≠ ')') = ')' :: r := by
  induction content with
  | nil => simp [List.takeWhile_cons, List.dropWhile_cons]
  | cons d ds ih =>
    have hd : d ≠ ')' := fun h => hc (h ▸ List.mem_cons_self d ds)
    have h2 := ih (fun h => hc (List.mem_cons_of_mem d h))
    refine ⟨?_, ?_⟩
    · rw [List.cons_append, List.takeWhile_cons, if_pos (by simp [hd]), h2.1]
    · rw [List.cons_append, List.dropWhile_cons, if_pos (by simp [hd]), h2.2]

theorem parenCore_at_paren (check : Str → Str → Option Str) (content r : Str)
    (hc : ')' ∉ content) :
    parenCore check ('(' :: (content ++ ')' :: r)) = check content r := by
  unfold parenCore
  rw [List.dropWhile_cons]
  have hop : isWsB '(' = false := by decide
  simp only [hop, Bool.false_eq_true, if_false, List.head?_cons, List.tail_cons]
  rw [if_true, (scanParen content r hc).1, (scanParen content r hc).2]
  simp

theorem parenCore_after_ws (check : Str → Str → Option Str) (content r : Str)
    (hc : ')' ∉ content) :
    ∀ w : Str, (∀ x ∈ w, isWsB x = true) →
      parenCore check (w ++ '(' :: (content ++ ')' :: r)) = check content r := by
  intro w
  induction w with
  | nil => intro _; exact parenCore_at_paren check content r hc
  | cons c cs ih =>
    intro hw
    rw [List.cons_append, parenCore_ws check c _ (hw c (List.mem_cons_self c cs))]
    exact ih (fun x hx => hw x (List.mem_cons_of_mem c hx))

theorem parenCore_none_in_base (check : Str → Str → Option Str) :
    ∀ b : Str, '(' ∉ b → (¬ ∀ x ∈ b, isWsB x = true) →
      ∀ t : Str, parenCore check (b ++ t) = none := by
  intro b
  induction b with
  | nil => intro _ hall; exact absurd (by simp) hall
  | cons c bs ih =>
    intro hb hall t
    by_cases hc : isWsB c = true
    · rw [List.cons_append, parenCore_ws check c _ hc]
      refine ih (fun h => hb (List.mem_cons_of_mem c h)) ?_ t
      intro h2
      exact hall (fun x hx => by
        rcases List.mem_cons.mp hx with h | h
        · exact h ▸ hc
        · exact h2 x h)
    · have hc2 : isWsB c = false := by simpa using hc
      rw [List.cons_append]
      exact parenCore_fail check c _ hc2 (fun h => hb (h ▸ List.mem_cons_self c bs))

theorem replaceFirst_paren (check : Str → Str → Option Str) (content r rem : Str)
    (hcp : ')' ∉ content) (hcheck : check content r = some rem) :
    ∀ base : Str, '(' ∉ base →
      replaceFirstBy (parenCore check) (base ++ '(' :: (content ++ ')' :: r)) =
        rtrimWs base ++ rem := by
  intro base
  induction base with
  | nil =>
    intro _
    rw [List.nil_append]
    unfold replaceFirstBy
    rw [parenCore_at_paren check content r hcp, hcheck, rtrimWs_nil, List.nil_append]
  | cons c bs ih =>
    intro hb
    by_cases hall : ∀ x ∈ c :: bs, isWsB x = true
    · have hm := parenCore_after_ws check content r hcp (c :: bs) hall
      rw [List.cons_append] at hm ⊢
      unfold replaceFirstBy
      rw [show c :: (bs ++ '(' :: (content ++ ')' :: r)) =
        (c :: bs) ++ '(' :: (content ++ ')' :: r) from rfl] at *
      rw [hm, hcheck, (rtrimWs_eq_nil_iff (c :: bs)).mpr hall, List.nil_append]
    · have hm := parenCore_none_in_base check (c :: bs) hb hall
        ('(' :: (content ++ ')' :: r))
      rw [List.cons_append]
      unfold replaceFirstBy
      rw [show c :: (bs ++ '(' :: (content ++ ')' :: r)) =
        (c :: bs) ++ '(' :: (content ++ ')' :: r) from rfl, hm]
      rw [ih (fun h => hb (List.mem_cons_of_mem c h))]
      rw [rtrimWs_cons]
      have hcond : ¬ (isWsB c = true ∧ rtrimWs bs = []) := by
        intro h
        apply hall
        intro x hx
        rcases List.mem_cons.mp hx with hx1 | hx1
        · exact hx1 ▸ h.1
        · exact (rtrimWs_eq_nil_iff bs).mp h.2 x hx1
      rw [if_neg hcond, List.cons_append]

theorem parenCore_none_no_paren (check : Str → Str → Option Str) :
    ∀ v : Str, '(' ∉ v → parenCore check v = none := by
  intro v
  induction v with
  | nil => intro _; rfl
  | cons c cs ih =>
    intro hv
    by_cases hc : isWsB c = true
    · rw [parenCore_ws check c cs hc]
      exact ih (fun h => hv (List.mem_cons_of_mem c h))
    · exact parenCore_fail check c cs (by simpa using hc)
        (fun h => hv (h ▸ List.mem_cons_self c cs))

theorem replaceFirst_id_no_paren (check : Str → Str → Option Str) :
    ∀ s : Str, '(' ∉ s → replaceFirstBy (parenCore check) s = s := by
  intro s
  induction s with
  | nil => intro _; rfl
  | cons c cs ih =>
    intro hs
    unfold replaceFirstBy
    rw [parenCore_none_no_paren check (c :: cs) hs]
    rw [ih (fun h => hs (List.mem_cons_of_mem c h))]

theorem catParenAt_none_inner (content : Str) (hcp : ')' ∉ content)
    (H2 : ∀ u c2 : Str, content = u ++ c2 → containsKeyword c2 = false) :
    ∀ c2 u : Str, content = u ++ c2 → catParenAt (c2 ++ [')']) = none := by
  unfold catParenAt
  intro c2
  induction c2 with
  | nil => intro u _; exact parenCore_fail _ ')' [] (by decide) (by decide)
  | cons d c2t ih =>
    intro u hu
    have hd_mem : d ∈ content := by rw [hu]; simp
    by_cases hd : isWsB d = true
    · rw [List.cons_append, parenCore_ws _ d _ hd]
      exact ih (u ++ [d]) (by rw [hu]; simp)
    · by_cases hdp : d = '('
      · subst hdp
        rw [List.cons_append]
        have hcp2 : ')' ∉ c2t := fun h => hcp (by rw [hu]; simp [h])
        rw [show c2t ++ [')'] = c2t ++ ')' :: [] from rfl,
          parenCore_at_paren _ c2t [] hcp2]
        have := H2 (u ++ ['(']) c2t (by rw [hu]; simp)
        simp [this]
      · exact parenCore_fail _ d _ (by simpa using hd) hdp

theorem catParenAt_none_title (content : Str) (hcp : ')' ∉ content)
    (hk : containsKeyword content = false) :
    ∀ b : Str, '(' ∉ b → catParenAt (b ++ '(' :: (content ++ [')'])) = none := by
  unfold catParenAt
  intro b
  induction b with
  | nil =>
    intro _
    rw [List.nil_append, show content ++ [')'] = content ++ ')' :: [] from rfl,
      parenCore_at_paren _ content [] hcp]
    simp [hk]
  | cons c bs ih =>
    intro hb
    by_cases hc : isWsB c = true
    · rw [List.cons_append, parenCore_ws _ c _ hc]
      exact ih (fun h => hb (List.mem_cons_of_mem c h))
    · rw [List.cons_append]
      exact parenCore_fail _ c _ (by simpa using hc)
        (fun h => hb (h ▸ List.mem_cons_self c bs))

theorem replaceFirst_cat_id_inner (content : Str) (hcp : ')' ∉ content)
    (H2 : ∀ u c2 : Str, content = u ++ c2 → containsKeyword c2 = false) :
    ∀ c2 u : Str, content = u ++ c2 →
      replaceFirstBy catParenAt (c2 ++ [')']) = c2 ++ [')'] := by
  intro c2
  induction c2 with
  | nil =>
    intro u _
    rw [List.nil_append]
    unfold replaceFirstBy
    rw [show catParenAt [')'] = none from
      parenCore_fail _ ')' [] (by decide) (by decide)]
    rfl
  | cons d c2t ih =>
    intro u hu
    rw [List.cons_append]
    unfold replaceFirstBy
    rw [show d :: (c2t ++ [')']) = (d :: c2t) ++ [')'] from rfl,
      catParenAt_none_inner content hcp H2 (d :: c2t) u hu]
    rw [ih (u ++ [d]) (by rw [hu]; simp)]
    rfl

theorem replaceFirst_cat_id (content : Str) (hcp : ')' ∉ content)
    (hk : containsKeyword content = false) :
    ∀ b : Str, '(' ∉ b →
      replaceFirstBy catParenAt (b ++ '(' :: (content ++ [')'])) =
        b ++ '(' :: (content ++ [')']) := by
  have H2 : ∀ u c2 : Str, content = u ++ c2 → containsKeyword c2 = false := by
    intro u c2 hu
    by_contra h
    have := containsKeyword_mono content c2 u hu (by simpa using h)
    rw [hk] at this
    exact Bool.false_ne_true this
  intro b
  induction b with
  | nil =>
    rw [List.nil_append]
    intro _
    unfold replaceFirstBy
    have hnt := catParenAt_none_title content hcp hk [] (by simp)
    rw [List.nil_append] at hnt
    rw [hnt, replaceFirst_cat_id_inner content hcp H2 content [] rfl]
  | cons c bs ih =>
    intro hb
    rw [List.cons_append]
    unfold replaceFirstBy
    rw [show c :: (bs ++ '(' :: (content ++ [')'])) =
      (c :: bs) ++ '(' :: (content ++ [')']) from rfl,
      catParenAt_none_title content hcp hk (c :: bs) hb]
    rw [ih (fun h => hb (List.mem_cons_of_mem c h))]
    rfl

theorem rtrim_ends_rparen (x : Str) : rtrimWs (x ++ [')']) = x ++ [')'] := by
  rw [rtrimWs_eq_rdropWhile]
  exact List.rdropWhile_concat_neg (p := isWsB) (l := x) ')' (by decide)

theorem title_shape (base' content : Str) :
    base' ++ '(' :: (content ++ [')']) = (base' ++ '(' :: content) ++ [')'] := by
  simp

theorem jsTrim_title (base content : Str) :
    jsTrim (base ++ '(' :: (content ++ [')'])) =
      (base.dropWhile isWsB) ++ '(' :: (content ++ [')']) := by
  unfold jsTrim
  rw [List.dropWhile_append]
  by_cases hmt : (base.dropWhile isWsB).isEmpty
  · rw [if_pos hmt]
    rw [List.dropWhile_cons]
    rw [if_neg (by decide)]
    rw [show ('(' :: (content ++ [')']) : Str) = ('(' :: content) ++ [')'] by simp,
      rtrim_ends_rparen, List.isEmpty_iff.mp hmt, List.nil_append]
  · rw [if_neg hmt]
    rw [show base.dropWhile isWsB ++ '(' :: (content ++ [')']) =
      (base.dropWhile isWsB ++ '(' :: content) ++ [')'] by simp,
      rtrim_ends_rparen]

/-- Claim C8: the Amazon title cleanup removes a trailing parenthetical whose
content contains one of the marketing-category keywords, and any trailing
parenthetical whose content is at least 30 characters; in particular
"Some Book (Bird Books, Gift Books)" cleans to "Some Book". -/
theorem claim8_amazon_title_cleanup :
    (∀ base a kw b : Str, kw ∈ catKeywords → '(' ∉ base → ')' ∉ a → ')' ∉ b →
      amazonTitleCleanup (base ++ '(' :: (((a ++ kw) ++ b) ++ [')'])) = jsTrim base) ∧
    (∀ base content : Str, '(' ∉ base → ')' ∉ content → 30 ≤ content.length →
      containsKeyword content = false →
      amazonTitleCleanup (base ++ '(' :: (content ++ [')'])) = jsTrim base) ∧
    amazonTitleCleanup ("Some Book (Bird Books, Gift Books)".toList) =
      "Some Book".toList := by
  refine ⟨?_, ?_, by decide⟩
  · intro base a kw b hkw hb ha hbp
    have hkwp : ')' ∉ kw := by
      have hall : ∀ k ∈ catKeywords, ')' ∉ k := by decide
      exact hall kw hkw
    have hcontent_p : ')' ∉ ((a ++ kw) ++ b) := by
      intro h
      rcases List.mem_append.mp h with h1 | h1
      · rcases List.mem_append.mp h1 with h2 | h2
        · exact ha h2
        · exact hkwp h2
      · exact hbp h1
    have hck : containsKeyword ((a ++ kw) ++ b) = true := by
      unfold containsKeyword
      simp only [List.any_eq_true]
      refine ⟨kw, hkw, ?_⟩
      rw [lowerStr_append, lowerStr_append]
      exact listContains_of_split _ _ (lowerStr a) (lowerStr b)
        (by simp [List.append_assoc])
    have htne : base ++ '(' :: (((a ++ kw) ++ b) ++ [')']) ≠ [] := by simp
    unfold amazonTitleCleanup
    rw [if_neg htne]
    unfold catParenAt
    have hck2 : containsKeyword (a ++ (kw ++ b)) = true := by
      rw [← List.append_assoc]
      exact hck
    rw [show ((a ++ kw) ++ b) ++ [')'] = ((a ++ kw) ++ b) ++ ')' :: [] from rfl,
      replaceFirst_paren _ ((a ++ kw) ++ b) [] [] hcontent_p (by simp [hck2]) base hb]
    rw [List.append_nil, jsTrim_rtrim]
    unfold longParenAt
    rw [replaceFirst_id_no_paren _ (jsTrim base)
      (fun h => hb (mem_of_mem_jsTrim base '(' h))]
    exact jsTrim_idem base
  · intro base content hb hcp hlen hk
    have htne : base ++ '(' :: (content ++ [')']) ≠ [] := by simp
    unfold amazonTitleCleanup
    rw [if_neg htne]
    rw [replaceFirst_cat_id content hcp hk base hb]
    rw [jsTrim_title base content]
    have hb2 : '(' ∉ base.dropWhile isWsB :=
      fun h => hb ((List.dropWhile_suffix isWsB).subset h)
    unfold longParenAt
    rw [show content ++ [')'] = content ++ ')' :: [] from rfl,
      replaceFirst_paren _ content [] [] hcp (by simp [hlen]) (base.dropWhile isWsB) hb2]
    rw [List.append_nil]
    rw [show rtrimWs (base.dropWhile isWsB) = jsTrim base from rfl]
    exact jsTrim_idem base

/-- Witness for C8: both clauses applied at the concrete title of the claim
and at a long trailing parenthetical. -/
theorem claim8_amazon_title_cleanup_witness :
    amazonTitleCleanup ("Some Book ".toList ++ '(' ::
        ((("".toList ++ "Bird Books".toList) ++ ", Gift Books".toList) ++ [')'])) =
      jsTrim ("Some Book ".toList) ∧
    amazonTitleCleanup ("T ".toList ++ '(' ::
        ("aaaaaaaaaaaaaaaaaaaaaaaaaaaaaaaaaa".toList ++ [')'])) =
      jsTrim ("T ".toList) :=
  ⟨claim8_amazon_title_cleanup.1 ("Some Book ".toList) ("".toList)
      ("Bird Books".toList) (", Gift Books".toList) (by decide) (by decide)
      (by decide) (by decide),
   claim8_amazon_title_cleanup.2.1 ("T ".toList)
      ("aaaaaaaaaaaaaaaaaaaaaaaaaaaaaaaaaa".toList) (by decide) (by decide)
      (by decide) (by decide)⟩

-- ---------------------------------------------------------------------------
-- Claim C3: termination of the hydration-payload searches
-- ---------------------------------------------------------------------------

theorem unvis_le (heap : Heap) (vis : List Nat) : unvis heap vis ≤ heap.length := by
  unfold unvis
  calc ((Finset.range heap.length).filter (fun i => i ∉ vis)).card
      ≤ (Finset.range heap.length).card := Finset.card_filter_le _ _
    _ = heap.length := Finset.card_range _

theorem unvis_mono (heap : Heap) (vis vis2 : List Nat) (h : vis ⊆ vis2) :
    unvis heap vis2 ≤ unvis heap vis := by
  unfold unvis
  apply Finset.card_le_card
  intro i hi
  simp only [Finset.mem_filter, Finset.mem_range] at hi ⊢
  exact ⟨hi.1, fun hm => hi.2 (h hm)⟩

theorem unvis_cons (heap : Heap) (vis : List Nat) (id : Nat)
    (hid : id < heap.length) (hnv : id ∉ vis) :
    unvis heap vis = unvis heap (id :: vis) + 1 := by
  unfold unvis
  have hsplit : (Finset.range heap.length).filter (fun i => i ∉ vis) =
      insert id ((Finset.range heap.length).filter (fun i => i ∉ id :: vis)) := by
    ext i
    simp only [Finset.mem_filter, Finset.mem_range, Finset.mem_insert, List.mem_cons]
    constructor
    · intro ⟨h1, h2⟩
      by_cases hii : i = id
      · exact Or.inl hii
      · exact Or.inr ⟨h1, fun h => (h.elim hii h2)⟩
    · intro h
      rcases h with h | ⟨h1, h2⟩
      · exact ⟨h ▸ hid, h ▸ hnv⟩
      · exact ⟨h1, fun hm => h2 (Or.inr hm)⟩
  have hnm : id ∉ (Finset.range heap.length).filter (fun i => i ∉ id :: vis) := by
    simp [List.mem_cons]
  rw [hsplit, Finset.card_insert_of_not_mem hnm]

theorem trav_mono {A : Type} (heap : Heap) (found : Nat → JsObj → Option A)
    (useDet : Bool) :
    ∀ fuel : Nat,
      (∀ vis v r vis2, travNode heap found useDet fuel vis v = some (r, vis2) →
        vis ⊆ vis2) ∧
      (∀ vis l r vis2, travList heap found useDet fuel vis l = some (r, vis2) →
        vis ⊆ vis2) := by
  intro fuel
  induction fuel with
  | zero =>
    constructor
    · intro vis v r vis2 h
      simp [travNode] at h
    · intro vis l r vis2 h
      cases l with
      | nil =>
        simp [travList] at h
        exact h.2 ▸ List.Subset.refl vis
      | cons v vs => simp [travList, travNode] at h
  | succ fuel ih =>
    have hnode : ∀ vis v r vis2,
        travNode heap found useDet (fuel + 1) vis v = some (r, vis2) → vis ⊆ vis2 := by
      intro vis v r vis2 h
      cases v with
      | prim p =>
        simp [travNode] at h
        exact h.2 ▸ List.Subset.refl vis
      | ref id =>
        by_cases hv : id ∈ vis
        · simp [travNode, hv] at h
          exact h.2 ▸ List.Subset.refl vis
        · cases hg : heap[id]? with
          | none =>
            simp [travNode, hv, hg] at h
            exact h.2 ▸ List.Subset.refl vis
          | some o =>
            have hsub1 : vis ⊆ id :: vis := List.subset_cons_self id vis
            cases hf : found id o with
            | some a =>
              simp [travNode, hv, hg, hf] at h
              exact h.2 ▸ hsub1
            | none =>
              cases hd : (if useDet then detailsChild o else none) with
              | none =>
                simp [travNode, hv, hg, hf, hd] at h
                exact hsub1.trans (ih.2 (id :: vis) (childVals o) r vis2 h)
              | some d =>
                simp [travNode, hv, hg, hf, hd] at h
                cases hrec : travNode heap found useDet fuel (id :: vis) (.ref d) with
                | none => rw [hrec] at h; simp at h
                | some p =>
                  obtain ⟨ra, visa⟩ := p
                  have hsub2 : id :: vis ⊆ visa := ih.1 (id :: vis) (.ref d) ra visa hrec
                  cases ra with
                  | some a =>
                    rw [hrec] at h
                    simp at h
                    exact h.2 ▸ (hsub1.trans hsub2)
                  | none =>
                    rw [hrec] at h
                    simp at h
                    exact (hsub1.trans hsub2).trans
                      (ih.2 visa (childVals o) r vis2 h)
    refine ⟨hnode, ?_⟩
    intro vis l
    induction l generalizing vis with
    | nil =>
      intro r vis2 h
      simp [travList] at h
      exact h.2 ▸ List.Subset.refl vis
    | cons v vs ihl =>
      intro r vis2 h
      rw [travList] at h
      cases hrec : travNode heap found useDet (fuel + 1) vis v with
      | none => rw [hrec] at h; simp at h
      | some p =>
        obtain ⟨ra, visa⟩ := p
        have hsub : vis ⊆ visa := hnode vis v ra visa hrec
        cases ra with
        | some a =>
          rw [hrec] at h
          simp at h
          exact h.2 ▸ hsub
        | none =>
          rw [hrec] at h
          simp at h
          exact hsub.trans (ihl visa r vis2 h)

theorem trav_fuel {A : Type} (heap : Heap) (found : Nat → JsObj → Option A)
    (useDet : Bool) :
    ∀ fuel : Nat,
      (∀ vis v, unvis heap vis + 1 ≤ fuel → travNode heap found useDet fuel vis v ≠ none) ∧
      (∀ vis l, unvis heap vis + 1 ≤ fuel → travList heap found useDet fuel vis l ≠ none) := by
  intro fuel
  induction fuel with
  | zero =>
    constructor
    · intro vis v hle
      omega
    · intro vis l hle
      omega
  | succ fuel ih =>
    have hnode : ∀ vis v, unvis heap vis + 1 ≤ fuel + 1 →
        travNode heap found useDet (fuel + 1) vis v ≠ none := by
      intro vis v hle
      cases v with
      | prim p => simp [travNode]
      | ref id =>
        by_cases hv : id ∈ vis
        · simp [travNode, hv]
        · cases hg : heap[id]? with
          | none => simp [travNode, hv, hg]
          | some o =>
            have hid : id < heap.length := by
              by_contra hlt
              rw [List.getElem?_eq_none (by omega)] at hg
              exact Option.noConfusion hg
            have hcount : unvis heap vis = unvis heap (id :: vis) + 1 :=
              unvis_cons heap vis id hid hv
            have hle2 : unvis heap (id :: vis) + 1 ≤ fuel := by omega
            cases hf : found id o with
            | some a => simp [travNode, hv, hg, hf]
            | none =>
              cases hd : (if useDet then detailsChild o else none) with
              | none =>
                simp only [travNode, hv, hg, hf, hd, if_false, ite_false]
                exact ih.2 (id :: vis) (childVals o) hle2
              | some d =>
                simp only [travNode, hv, hg, hf, hd, if_false, ite_false]
                cases hrec : travNode heap found useDet fuel (id :: vis) (.ref d) with
                | none => exact absurd hrec (ih.1 (id :: vis) (.ref d) hle2)
                | some p =>
                  obtain ⟨ra, visa⟩ := p
                  cases ra with
                  | some a => simp
                  | none =>
                    simp only []
                    have hsubv : id :: vis ⊆ visa :=
                      (trav_mono heap found useDet fuel).1 (id :: vis) (.ref d)
                        none visa hrec
                    have hle3 : unvis heap visa + 1 ≤ fuel := by
                      have := unvis_mono heap (id :: vis) visa hsubv
                      omega
                    exact ih.2 visa (childVals o) hle3
    refine ⟨hnode, ?_⟩
    intro vis l
    induction l generalizing vis with
    | nil =>
      intro hle
      simp [travList]
    | cons v vs ihl =>
      intro hle
      rw [travList]
      cases hrec : travNode heap found useDet (fuel + 1) vis v with
      | none => exact absurd hrec (hnode vis v hle)
      | some p =>
        obtain ⟨ra, visa⟩ := p
        cases ra with
        | some a => simp
        | none =>
          simp only []
          have hsubv : vis ⊆ visa :=
            (trav_mono heap found useDet (fuel + 1)).1 vis v none visa hrec
          have hle3 : unvis heap visa + 1 ≤ fuel + 1 := by
            have := unvis_mono heap vis visa hsubv
            omega
          exact ihl visa hle3

/-- Claim C3: the recursive searches over the Goodreads hydration payload
(`findBookDetails` and `findDescription`) terminate on every object graph,
including graphs with shared or cyclic references, because visited nodes are
tracked by identity and never revisited: fuel one larger than the heap size
is always enough (the search never runs out), and on a concrete self-cyclic
heap both searches come back (with no hit) after visiting the node once. -/
theorem claim3_traversal_terminates :
    (∀ (heap : Heap) (v : JsVal), findBookDetails heap (heap.length + 1) v ≠ none) ∧
    (∀ (heap : Heap) (v : JsVal), findDescription heap (heap.length + 1) v ≠ none) ∧
    findBookDetails cyclicHeap (cyclicHeap.length + 1) (JsVal.ref 0) =
      some (none, [0]) ∧
    findDescription cyclicHeap (cyclicHeap.length + 1) (JsVal.ref 0) =
      some (none, [0]) := by
  refine ⟨?_, ?_, ?_, ?_⟩
  · intro heap v
    unfold findBookDetails
    apply (trav_fuel heap _ true (heap.length + 1)).1 [] v
    have := unvis_le heap []
    omega
  · intro heap v
    unfold findDescription
    apply (trav_fuel heap _ false (heap.length + 1)).1 [] v
    have := unvis_le heap []
    omega
  · simp [findBookDetails, travNode, travList, cyclicHeap, detailsChild, objField,
      isBookDetails, fieldDefined, childVals, List.find?]
  · simp [findDescription, travNode, travList, cyclicHeap, descriptionHit, objField,
      childVals, List.find?]

-- ---------------------------------------------------------------------------
-- Claims C4 and C5: fetchSummary
-- ---------------------------------------------------------------------------

/-- Claim C4: when a valid ISBN is supplied and the primary by-ISBN stage
yields a cleaned description longer than 20 characters, that description —
cleaned and truncated to 500 characters — is returned and the only network
request issued is the by-ISBN lookup (the search and Google stages are never
invoked); and with no ISBN and both remaining stages failing, the result is
exactly the empty string. -/
theorem claim4_fetchSummary_shortcircuit :
    (∀ (net : Net) (t a i : Str) (fs : List (String × JVal)) (s : Str),
      5 < i.length →
      net (Req.isbnLookup i) = NetResp.ok 200 (some (JVal.jobj fs)) →
      jGet (JVal.jobj fs) "description" = JVal.jstr s →
      20 < (cleanDesc s).length →
      fetchSummary net t a (some i) =
        (jsTrim ((cleanDesc s).take 500), [Req.isbnLookup i])) ∧
    (∀ (net : Net) (t a : Str),
      catchStage (stage2 net t a).1 = none →
      catchStage (stage3 net t a none).1 = none →
      (fetchSummary net t a none).1 = []) := by
  constructor
  · intro net t a i fs s hlen hnet hdesc hclean
    have hsne : s ≠ [] := by
      intro h
      subst h
      simp [cleanDesc, stripTags, stripTagsAux, collapseWs, collapseWsAux, jsTrim,
        rtrimWs] at hclean
    have hse : s.isEmpty = false := by
      simp [List.isEmpty_iff, hsne]
    have hs1 : stage1 net i =
        (.ok (some (jsTrim ((cleanDesc s).take 500))), [Req.isbnLookup i]) := by
      simp only [stage1]
      rw [hnet]
      simp [hdesc, jTruthy, hse, hclean]
    unfold fetchSummary
    rw [show isbnValid (some i) = true by simp [isbnValid]; omega]
    simp only [if_true, Option.getD_some]
    rw [hs1]
    rfl
  · intro net t a h2 h3
    unfold fetchSummary
    rw [show isbnValid none = false from rfl]
    simp only [Bool.false_eq_true, if_false]
    unfold summaryStages23
    simp only []
    rw [h2, h3]

/-- Claim C5: `fetchSummary` never raises: a transport exception or non-200
response in a stage is caught inside that stage and treated as "found
nothing", the evaluation proceeding to the next stage; under an
always-throwing network the result is the empty string rather than an
exception. -/
theorem claim5_fetchSummary_isolated :
    (∀ (net : Net) (t a i : Str), 5 < i.length →
      (net (Req.isbnLookup i) = NetResp.throw ∨
        ∃ st json, net (Req.isbnLookup i) = NetResp.ok st json ∧ st ≠ 200) →
      fetchSummary net t a (some i) =
        ((summaryStages23 net t a (some i)).1,
          Req.isbnLookup i :: (summaryStages23 net t a (some i)).2)) ∧
    (∀ (net : Net) (t a : Str),
      (net (Req.searchTA (cleanTitleJS t) (authorTok a)) = NetResp.throw ∨
        ∃ st json, net (Req.searchTA (cleanTitleJS t) (authorTok a)) =
          NetResp.ok st json ∧ st ≠ 200) →
      catchStage (stage2 net t a).1 = none) ∧
    (∀ (net : Net) (t a : Str) (isbn : Option Str),
      (net (Req.google (stage3Query t a isbn)) = NetResp.throw ∨
        ∃ st json, net (Req.google (stage3Query t a isbn)) =
          NetResp.ok st json ∧ st ≠ 200) →
      catchStage (stage3 net t a isbn).1 = none) ∧
    (∀ (t a : Str) (isbn : Option Str),
      (fetchSummary (fun _ => NetResp.throw) t a isbn).1 = []) := by
  have hstage2 : ∀ (net : Net) (t a : Str),
      (net (Req.searchTA (cleanTitleJS t) (authorTok a)) = NetResp.throw ∨
        ∃ st json, net (Req.searchTA (cleanTitleJS t) (authorTok a)) =
          NetResp.ok st json ∧ st ≠ 200) →
      catchStage (stage2 net t a).1 = none := by
    intro net t a hbad
    rcases hbad with hthrow | ⟨st, json, hok, hst⟩
    · unfold stage2
      simp only []
      rw [hthrow]
      rfl
    · unfold stage2
      simp only []
      rw [hok]
      simp [hst, catchStage]
  have hstage3 : ∀ (net : Net) (t a : Str) (isbn : Option Str),
      (net (Req.google (stage3Query t a isbn)) = NetResp.throw ∨
        ∃ st json, net (Req.google (stage3Query t a isbn)) =
          NetResp.ok st json ∧ st ≠ 200) →
      catchStage (stage3 net t a isbn).1 = none := by
    intro net t a isbn hbad
    rcases hbad with hthrow | ⟨st, json, hok, hst⟩
    · unfold stage3
      simp only []
      rw [hthrow]
      rfl
    · unfold stage3
      simp only []
      rw [hok]
      simp [hst, catchStage]
  refine ⟨?_, hstage2, hstage3, ?_⟩
  · intro net t a i hlen hbad
    have hs1 : catchStage (stage1 net i).1 = none ∧
        (stage1 net i).2 = [Req.isbnLookup i] := by
      rcases hbad with hthrow | ⟨st, json, hok, hst⟩
      · unfold stage1
        simp only []
        rw [hthrow]
        exact ⟨rfl, rfl⟩
      · unfold stage1
        simp only []
        rw [hok]
        refine ⟨?_, ?_⟩ <;> simp [hst, catchStage]
    unfold fetchSummary
    rw [show isbnValid (some i) = true by simp [isbnValid]; omega]
    simp only [if_true, Option.getD_some]
    rw [hs1.1, hs1.2]
    simp
  · intro t a isbn
    cases isbn with
    | none => rfl
    | some s =>
      unfold fetchSummary
      by_cases hv : isbnValid (some s) = true
      · rw [hv]
        simp only [if_true, Option.getD_some]
        rfl
      · rw [show isbnValid (some s) = false by simpa using hv]
        simp only [Bool.false_eq_true, if_false]
        rfl

/-- Witness for C4: both clauses at concrete networks — one answering the
by-ISBN lookup with a long description (and throwing elsewhere, which is
never reached), one failing everywhere. -/
theorem claim4_fetchSummary_shortcircuit_witness :
    fetchSummary
      (fun r => match r with
        | Req.isbnLookup _ => NetResp.ok 200 (some (JVal.jobj
            [("description",
              JVal.jstr "  This is a <b>long</b> enough   description. ".toList)]))
        | _ => NetResp.throw)
      "T".toList "A".toList (some "1234567".toList) =
      (jsTrim ((cleanDesc "  This is a <b>long</b> enough   description. ".toList).take 500),
        [Req.isbnLookup "1234567".toList]) ∧
    (fetchSummary (fun _ => NetResp.throw) "T".toList "A".toList none).1 = [] :=
  ⟨claim4_fetchSummary_shortcircuit.1 _ "T".toList "A".toList "1234567".toList
      [("description", JVal.jstr "  This is a <b>long</b> enough   description. ".toList)]
      ("  This is a <b>long</b> enough   description. ".toList)
      (by decide) rfl rfl (by decide),
   claim4_fetchSummary_shortcircuit.2 _ "T".toList "A".toList rfl rfl⟩

/-- Witness for C5: all four clauses at an always-throwing network. -/
theorem claim5_fetchSummary_isolated_witness :
    fetchSummary (fun _ => NetResp.throw) "T".toList "A".toList (some "1234567".toList) =
      ((summaryStages23 (fun _ => NetResp.throw) "T".toList "A".toList
          (some "1234567".toList)).1,
        Req.isbnLookup "1234567".toList ::
          (summaryStages23 (fun _ => NetResp.throw) "T".toList "A".toList
            (some "1234567".toList)).2) ∧
    catchStage (stage2 (fun _ => NetResp.throw) "T".toList "A".toList).1 = none ∧
    catchStage (stage3 (fun _ => NetResp.throw) "T".toList "A".toList none).1 = none ∧
    (fetchSummary (fun _ => NetResp.throw) "T".toList "A".toList (some "x".toList)).1 = [] :=
  ⟨claim5_fetchSummary_isolated.1 _ "T".toList "A".toList "1234567".toList
      (by decide) (Or.inl rfl),
   claim5_fetchSummary_isolated.2.1 _ "T".toList "A".toList (Or.inl rfl),
   claim5_fetchSummary_isolated.2.2.1 _ "T".toList "A".toList none (Or.inl rfl),
   claim5_fetchSummary_isolated.2.2.2 "T".toList "A".toList (some "x".toList)⟩

theorem expand_dollarFree (m pre post : Str) :
    ∀ r : Str, dollarFreeB r = true → expandRepl m pre post r = r := by
  intro r
  induction r with
  | nil => intro _; rfl
  | cons c rest ih =>
    intro hd
    have hc : c ≠ '$' := by
      intro h
      subst h
      simp [dollarFreeB] at hd
    have hrest : dollarFreeB rest = true := by
      simp only [dollarFreeB, List.all_cons, Bool.and_eq_true] at hd
      exact hd.2
    cases rest with
    | nil => simp [expandRepl, hc]
    | cons c2 rest2 =>
      have step : expandRepl m pre post (c :: c2 :: rest2) =
          c :: expandRepl m pre post (c2 :: rest2) := by
        simp [expandRepl, hc]
      rw [step, ih hrest]

theorem goReplaceF_nil (p r : Str) : ∀ (f : Nat) (pre : Str),
    goReplaceF p r f pre [] = [] := by
  intro f pre
  cases f <;> rfl

theorem goReplaceF_congr (p r : Str) (hr : dollarFreeB r = true) (hp : p ≠ []) :
    ∀ (n : Nat) (s : Str), s.length ≤ n →
      ∀ (f1 f2 : Nat) (pre1 pre2 : Str), s.length ≤ f1 → s.length ≤ f2 →
        goReplaceF p r f1 pre1 s = goReplaceF p r f2 pre2 s := by
  intro n
  induction n with
  | zero =>
    intro s hs f1 f2 pre1 pre2 _ _
    have : s = [] := List.length_eq_zero.mp (Nat.le_zero.mp hs)
    subst this
    rw [goReplaceF_nil, goReplaceF_nil]
  | succ n ihn =>
    intro s hs f1 f2 pre1 pre2 h1 h2
    cases s with
    | nil => rw [goReplaceF_nil, goReplaceF_nil]
    | cons c cs =>
      obtain ⟨a, rfl⟩ : ∃ a, f1 = a + 1 := by
        cases f1 with
        | zero => simp at h1
        | succ a => exact ⟨a, rfl⟩
      obtain ⟨b, rfl⟩ : ∃ b, f2 = b + 1 := by
        cases f2 with
        | zero => simp at h2
        | succ b => exact ⟨b, rfl⟩
      rw [goReplaceF, goReplaceF]
      by_cases hm : (p.isPrefixOf (c :: cs) && !p.isEmpty) = true
      · rw [if_pos hm, if_pos hm]
        rw [expand_dollarFree p pre1 (List.drop (List.length p) (c :: cs)) r hr,
          expand_dollarFree p pre2 (List.drop (List.length p) (c :: cs)) r hr]
        have hplen : 1 ≤ p.length := by
          cases p with
          | nil => exact absurd rfl hp
          | cons _ _ => simp
        have hdrop : ((c :: cs).drop p.length).length ≤ n := by
          simp only [List.length_drop, List.length_cons]
          simp only [List.length_cons] at hs
          omega
        rw [ihn _ hdrop a b (pre1 ++ p) (pre2 ++ p)
          (by simp only [List.length_drop, List.length_cons] at *; omega)
          (by simp only [List.length_drop, List.length_cons] at *; omega)]
      · rw [if_neg hm, if_neg hm]
        have hcs : cs.length ≤ n := by
          simp only [List.length_cons] at hs
          omega
        rw [ihn cs hcs a b (pre1 ++ [c]) (pre2 ++ [c])
          (by simp only [List.length_cons] at h1; omega)
          (by simp only [List.length_cons] at h2; omega)]

theorem mismatch_no_match : ∀ p w : Str, mismatchW p w = true →
    ∀ y : Str, p.isPrefixOf (w ++ y) = false := by
  intro p
  induction p with
  | nil => intro w h; simp [mismatchW] at h
  | cons p0 pt ih =>
    intro w h y
    cases w with
    | nil => simp [mismatchW] at h
    | cons w0 wt =>
      simp only [mismatchW, List.zip_cons_cons, List.any_cons, Bool.or_eq_true] at h
      rcases h with h | h
      · simp only [decide_eq_true_eq] at h
        simp [List.cons_append, List.isPrefixOf, h]
      · rw [List.cons_append]
        by_cases he : p0 = w0
        · simp [List.isPrefixOf, he, ih wt (by simpa [mismatchW] using h) y]
        · simp [List.isPrefixOf, he]

theorem mismatchW_self (p : Str) : mismatchW p p = false := by
  unfold mismatchW
  induction p with
  | nil => rfl
  | cons c cs ih => simpa [List.zip_cons_cons] using ih

theorem goReplaceF_skip (tl r : Str) (hr : dollarFreeB r = true) :
    ∀ x : Str, braceFreeB x = true → ∀ (y : Str) (f : Nat) (pre : Str),
      (x ++ y).length ≤ f →
      goReplaceF (lbCh :: tl) r f pre (x ++ y) =
        x ++ goReplaceF (lbCh :: tl) r y.length [] y := by
  intro x
  induction x with
  | nil =>
    intro _ y f pre hf
    rw [List.nil_append, List.nil_append]
    exact goReplaceF_congr (lbCh :: tl) r hr (by simp) y.length y (le_refl _)
      f y.length pre [] (by simpa using hf) (le_refl _)
  | cons c xs ih =>
    intro hx y f pre hf
    have hc : c ≠ lbCh := by
      simp only [braceFreeB, List.all_cons, Bool.and_eq_true, decide_eq_true_eq] at hx
      exact hx.1.1
    have hxs : braceFreeB xs = true := by
      simp only [braceFreeB, List.all_cons, Bool.and_eq_true] at hx
      exact hx.2
    obtain ⟨a, rfl⟩ : ∃ a, f = a + 1 := by
      cases f with
      | zero => simp at hf
      | succ a => exact ⟨a, rfl⟩
    rw [List.cons_append, goReplaceF]
    have hnp : ((lbCh :: tl).isPrefixOf (c :: (xs ++ y)) && !(lbCh :: tl).isEmpty) = false := by
      simp [List.isPrefixOf, Ne.symm hc, hc]
    rw [if_neg (by rw [hnp]; simp)]
    rw [ih hxs y a (pre ++ [c]) (by simp only [List.length_append, List.length_cons] at hf ⊢; omega)]
    rfl

theorem goReplaceF_consume (name r : Str) (hr : dollarFreeB r = true) :
    ∀ (y : Str) (f : Nat) (pre : Str), (tok name ++ y).length ≤ f →
      goReplaceF (tok name) r f pre (tok name ++ y) =
        r ++ goReplaceF (tok name) r y.length [] y := by
  intro y f pre hf
  obtain ⟨a, rfl⟩ : ∃ a, f = a + 1 := by
    cases f with
    | zero => simp [tok] at hf
    | succ a => exact ⟨a, rfl⟩
  have hshape : tok name ++ y = lbCh :: (lbCh :: name ++ [rbCh, rbCh] ++ y) := by
    simp [tok]
  rw [hshape, goReplaceF]
  have hpre : (tok name).isPrefixOf (lbCh :: (lbCh :: name ++ [rbCh, rbCh] ++ y)) = true := by
    have := isPrefixOf_self_append (tok name) y
    rw [hshape] at this
    exact this
  rw [if_pos (by rw [hpre]; simp [tok])]
  have hdrop : (lbCh :: (lbCh :: name ++ [rbCh, rbCh] ++ y)).drop (tok name).length = y := by
    have : tok name ++ y = lbCh :: (lbCh :: name ++ [rbCh, rbCh] ++ y) := hshape
    rw [← this, List.drop_left]
  rw [hdrop, expand_dollarFree _ _ _ r hr]
  congr 1
  apply goReplaceF_congr (tok name) r hr (by simp [tok]) y.length y (le_refl _)
  · simp [tok] at hf
    omega
  · exact le_refl _

theorem goReplaceF_walk (p r : Str) (hr : dollarFreeB r = true) (hp : p ≠ []) :
    ∀ other : Str, (∀ k, k < other.length → mismatchW p (other.drop k) = true) →
      ∀ (y : Str) (f : Nat) (pre : Str), (other ++ y).length ≤ f →
        goReplaceF p r f pre (other ++ y) =
          other ++ goReplaceF p r y.length [] y := by
  intro other
  induction other with
  | nil =>
    intro _ y f pre hf
    rw [List.nil_append, List.nil_append]
    exact goReplaceF_congr p r hr hp y.length y (le_refl _) f y.length pre []
      (by simpa using hf) (le_refl _)
  | cons c os ih =>
    intro hmis y f pre hf
    obtain ⟨a, rfl⟩ : ∃ a, f = a + 1 := by
      cases f with
      | zero => simp at hf
      | succ a => exact ⟨a, rfl⟩
    rw [List.cons_append, goReplaceF]
    have hnm : p.isPrefixOf (c :: (os ++ y)) = false := by
      have h0 := hmis 0 (by simp)
      simp only [List.drop_zero] at h0
      have := mismatch_no_match p (c :: os) h0 y
      rwa [List.cons_append] at this
    rw [if_neg (by rw [hnm]; simp)]
    rw [ih (fun k hk => by
        have := hmis (k + 1) (by simpa using Nat.succ_lt_succ hk)
        simpa using this)
      y a (pre ++ [c])
      (by simp only [List.length_append, List.length_cons] at hf ⊢; omega)]
    rfl

theorem render_cons (p : TPiece) (ps : List TPiece) :
    render (p :: ps) = renderPiece p ++ render ps := by
  simp [render]

theorem tok_shape (name : Str) :
    tok name = lbCh :: (lbCh :: name ++ [rbCh, rbCh]) := rfl

theorem goReplaceF_pieces (name r : Str) (hr : dollarFreeB r = true) :
    ∀ ps : List TPiece, (∀ piece ∈ ps, pieceOKB name piece = true) →
      ∀ (f : Nat) (pre : Str), (render ps).length ≤ f →
        goReplaceF (tok name) r f pre (render ps) =
          render (ps.map (substPiece name r)) := by
  intro ps
  induction ps with
  | nil =>
    intro _ f pre _
    simp only [List.map_nil]
    rw [show render [] = [] from rfl, goReplaceF_nil]
  | cons piece ps ih =>
    intro hok f pre hf
    have hokp : pieceOKB name piece = true := hok piece (List.mem_cons_self piece ps)
    have hokps : ∀ q ∈ ps, pieceOKB name q = true :=
      fun q hq => hok q (List.mem_cons_of_mem piece hq)
    rw [render_cons] at hf ⊢
    have hfr : (render ps).length ≤ (render ps).length := le_refl _
    cases piece with
    | val s =>
      have hbf : braceFreeB s = true := by simpa [pieceOKB] using hokp
      rw [show renderPiece (TPiece.val s) = s from rfl] at hf ⊢
      rw [tok_shape, goReplaceF_skip _ r hr s hbf (render ps) f pre hf]
      rw [← tok_shape, ih hokps (render ps).length [] hfr]
      rw [List.map_cons, render_cons]
      rfl
    | lit s =>
      rw [show renderPiece (TPiece.lit s) = s from rfl] at hf ⊢
      simp only [pieceOKB, Bool.or_eq_true] at hokp
      rcases hokp with hmm | hbf
      · have hk : ∀ k, k < s.length → mismatchW (tok name) (s.drop k) = true := by
          intro k hklt
          exact List.all_eq_true.mp hmm k (List.mem_range.mpr hklt)
        rw [goReplaceF_walk (tok name) r hr (by simp [tok]) s hk (render ps) f pre hf]
        rw [ih hokps (render ps).length [] hfr]
        rw [List.map_cons, render_cons]
        rfl
      · rw [tok_shape, goReplaceF_skip _ r hr s hbf (render ps) f pre hf]
        rw [← tok_shape, ih hokps (render ps).length [] hfr]
        rw [List.map_cons, render_cons]
        rfl
    | tokP n =>
      rw [show renderPiece (TPiece.tokP n) = tok n from rfl] at hf ⊢
      simp only [pieceOKB, Bool.or_eq_true, decide_eq_true_eq] at hokp
      rcases hokp with heq | hmm
      · subst heq
        rw [goReplaceF_consume n r hr (render ps) f pre hf]
        rw [ih hokps (render ps).length [] hfr]
        rw [List.map_cons, render_cons]
        rw [show substPiece n r (TPiece.tokP n) = TPiece.val r by simp [substPiece]]
        rfl
      · have hne : n ≠ name := by
          intro he
          subst he
          have hlen : 0 < (tok n).length := by simp [tok]
          have h0 := List.all_eq_true.mp hmm 0 (List.mem_range.mpr hlen)
          rw [List.drop_zero, mismatchW_self] at h0
          exact absurd h0 (by simp)
        have hk : ∀ k, k < (tok n).length → mismatchW (tok name) ((tok n).drop k) = true := by
          intro k hklt
          exact List.all_eq_true.mp hmm k (List.mem_range.mpr hklt)
        rw [goReplaceF_walk (tok name) r hr (by simp [tok]) (tok n) hk (render ps) f pre hf]
        rw [ih hokps (render ps).length [] hfr]
        rw [List.map_cons, render_cons]
        rw [show substPiece name r (TPiece.tokP n) = TPiece.tokP n by simp [substPiece, hne]]
        rfl

theorem replaceAll_pieces (name r : Str) (hr : dollarFreeB r = true)
    (ps : List TPiece) (hok : ∀ piece ∈ ps, pieceOKB name piece = true) :
    replaceAllJS (tok name) r (render ps) = render (ps.map (substPiece name r)) :=
  goReplaceF_pieces name r hr ps hok (render ps).length [] (le_refl _)


-- ---------------------------------------------------------------------------
-- escapeYamlString as a per-character expansion
-- ---------------------------------------------------------------------------

theorem catMap_append (g : Char → Str) : ∀ a b : Str,
    catMap g (a ++ b) = catMap g a ++ catMap g b := by
  intro a b
  induction a with
  | nil => rfl
  | cons c cs ih =>
    show g c ++ catMap g (cs ++ b) = (g c ++ catMap g cs) ++ catMap g b
    rw [ih, List.append_assoc]

theorem replace_single (a : Char) (r : Str) (hr : dollarFreeB r = true) :
    ∀ (s : Str) (f : Nat) (pre : Str), s.length ≤ f →
      goReplaceF [a] r f pre s = catMap (fun c => if c = a then r else [c]) s := by
  intro s
  induction s with
  | nil => intro f pre _; cases f <;> rfl
  | cons c cs ih =>
    intro f pre hf
    obtain ⟨b, rfl⟩ : ∃ b, f = b + 1 := by
      cases f with
      | zero => simp at hf
      | succ b => exact ⟨b, rfl⟩
    rw [goReplaceF]
    by_cases hc : c = a
    · rw [if_pos (by simp [List.isPrefixOf, hc])]
      rw [show (c :: cs).drop ([a] : Str).length = cs from rfl]
      rw [expand_dollarFree _ _ _ r hr]
      rw [ih b (pre ++ [a]) (by simpa using hf)]
      show r ++ _ = catMap _ (c :: cs)
      rw [show catMap (fun c => if c = a then r else [c]) (c :: cs) =
        (if c = a then r else [c]) ++ catMap (fun c => if c = a then r else [c]) cs from rfl]
      rw [if_pos hc]
    · rw [if_neg (by simp [List.isPrefixOf, Ne.symm hc])]
      rw [ih b (pre ++ [c]) (by simpa using hf)]
      rw [show catMap (fun c => if c = a then r else [c]) (c :: cs) =
        (if c = a then r else [c]) ++ catMap (fun c => if c = a then r else [c]) cs from rfl]
      rw [if_neg hc]
      rfl

theorem replaceAll_escG1 (s : Str) :
    replaceAllJS ['\\'] ['\\', '\\'] s = catMap escG1 s :=
  replace_single '\\' ['\\', '\\'] (by decide) s s.length [] (le_refl _)

theorem replaceAll_escG2 (s : Str) :
    replaceAllJS ['"'] ['\\', '"'] s = catMap escG2 s :=
  replace_single '"' ['\\', '"'] (by decide) s s.length [] (le_refl _)

theorem replaceAll_escG3 (s : Str) :
    replaceAllJS ['\n'] [' '] s = catMap escG3 s :=
  replace_single '\n' [' '] (by decide) s s.length [] (le_refl _)

theorem replaceAll_escG4 (s : Str) :
    replaceAllJS ['\r'] [' '] s = catMap escG4 s :=
  replace_single '\r' [' '] (by decide) s s.length [] (le_refl _)

theorem escChain_char (c : Char) :
    catMap escG4 (catMap escG3 (catMap escG2 (escG1 c))) = escYamlChar c := by
  by_cases h1 : c = '\\'
  · subst h1; rfl
  by_cases h2 : c = '"'
  · subst h2; rfl
  by_cases h3 : c = '\n'
  · subst h3; rfl
  by_cases h4 : c = '\r'
  · subst h4; rfl
  simp [escG1, escG2, escG3, escG4, escYamlChar, catMap, h1, h2, h3, h4]

theorem escChain (s : Str) :
    catMap escG4 (catMap escG3 (catMap escG2 (catMap escG1 s))) =
      catMap escYamlChar s := by
  induction s with
  | nil => rfl
  | cons c cs ih =>
    show catMap escG4 (catMap escG3 (catMap escG2 (escG1 c ++ catMap escG1 cs))) = _
    rw [catMap_append, catMap_append, catMap_append, ih, escChain_char]
    rfl

theorem escapeYaml_catMap (s : Str) : escapeYamlString s = catMap escYamlChar s := by
  cases s with
  | nil => rfl
  | cons c cs =>
    rw [show escapeYamlString (c :: cs) =
      replaceAllJS ['\r'] [' '] (replaceAllJS ['\n'] [' ']
        (replaceAllJS ['"'] ['\\', '"']
          (replaceAllJS ['\\'] ['\\', '\\'] (c :: cs)))) from rfl]
    rw [replaceAll_escG1, replaceAll_escG2, replaceAll_escG3, replaceAll_escG4, escChain]

theorem yamlSafeB_cons_other (c : Char) (cs : Str) (h1 : c ≠ '\\') (h2 : c ≠ '"')
    (h3 : c ≠ '\n') (h4 : c ≠ '\r') : yamlSafeB (c :: cs) = yamlSafeB cs := by
  cases cs with
  | nil => simp [yamlSafeB, h1, h2, h3, h4]
  | cons d ds => simp [yamlSafeB, h1, h2, h3, h4]

theorem yamlSafe_catMap (s : Str) : yamlSafeB (catMap escYamlChar s) = true := by
  induction s with
  | nil => rfl
  | cons c cs ih =>
    by_cases h1 : c = '\\'
    · subst h1; simpa [catMap, escYamlChar, yamlSafeB] using ih
    by_cases h2 : c = '"'
    · subst h2; simpa [catMap, escYamlChar, yamlSafeB] using ih
    by_cases h3 : c = '\n'
    · subst h3
      rw [show catMap escYamlChar ('\n' :: cs) = ' ' :: catMap escYamlChar cs from rfl]
      rw [yamlSafeB_cons_other ' ' _ (by decide) (by decide) (by decide) (by decide)]
      exact ih
    by_cases h4 : c = '\r'
    · subst h4
      rw [show catMap escYamlChar ('\r' :: cs) = ' ' :: catMap escYamlChar cs from rfl]
      rw [yamlSafeB_cons_other ' ' _ (by decide) (by decide) (by decide) (by decide)]
      exact ih
    rw [show catMap escYamlChar (c :: cs) = escYamlChar c ++ catMap escYamlChar cs from rfl]
    rw [show escYamlChar c = [c] by simp [escYamlChar, h1, h2, h3, h4]]
    rw [show ([c] : Str) ++ catMap escYamlChar cs = c :: catMap escYamlChar cs from rfl]
    rw [yamlSafeB_cons_other c _ h1 h2 h3 h4]
    exact ih

theorem escapeYaml_safe (s : Str) : yamlSafeB (escapeYamlString s) = true := by
  rw [escapeYaml_catMap]
  exact yamlSafe_catMap s

theorem catMap_all (pred : Char → Bool) (g : Char → Str)
    (hg : ∀ c, pred c = true → (g c).all pred = true) :
    ∀ s : Str, s.all pred = true → (catMap g s).all pred = true := by
  intro s
  induction s with
  | nil => intro _; rfl
  | cons c cs ih =>
    intro h
    rw [List.all_cons, Bool.and_eq_true] at h
    show (g c ++ catMap g cs).all pred = true
    rw [List.all_append, Bool.and_eq_true]
    exact ⟨hg c h.1, ih h.2⟩

theorem escYamlChar_pres (pred : Char → Bool)
    (hbs : pred '\\' = true) (hq : pred '"' = true) (hsp : pred ' ' = true) :
    ∀ c, pred c = true → (escYamlChar c).all pred = true := by
  intro c hc
  by_cases h1 : c = '\\'
  · subst h1; simp [escYamlChar, hbs]
  by_cases h2 : c = '"'
  · subst h2; simp [escYamlChar, hbs, hq]
  by_cases h3 : c = '\n'
  · subst h3; simp [escYamlChar, hsp]
  by_cases h4 : c = '\r'
  · subst h4; simp [escYamlChar, hsp]
  rw [show escYamlChar c = [c] by simp [escYamlChar, h1, h2, h3, h4]]
  simp [hc]

theorem esc_braceFree (s : Str) (hs : braceFreeB s = true) :
    braceFreeB (escapeYamlString s) = true := by
  rw [escapeYaml_catMap]
  exact catMap_all (fun c => c ≠ lbCh && c ≠ rbCh) escYamlChar
    (escYamlChar_pres (fun c => c ≠ lbCh && c ≠ rbCh)
      (by decide) (by decide) (by decide)) s hs

theorem esc_dollarFree (s : Str) (hs : dollarFreeB s = true) :
    dollarFreeB (escapeYamlString s) = true := by
  rw [escapeYaml_catMap]
  exact catMap_all (fun c => c ≠ '$') escYamlChar
    (escYamlChar_pres (fun c => c ≠ '$')
      (by decide) (by decide) (by decide)) s hs


-- ---------------------------------------------------------------------------
-- The twelve-pass substitution on the default template
-- ---------------------------------------------------------------------------

theorem subst_preserves_ok (n r name : Str) (hbr : braceFreeB r = true)
    (p : TPiece) (hp : pieceOKB name p = true) :
    pieceOKB name (substPiece n r p) = true := by
  cases p with
  | lit s => exact hp
  | val s => exact hp
  | tokP m =>
    by_cases h : m = n
    · simp [substPiece, h, pieceOKB, hbr]
    · simpa [substPiece, h] using hp

theorem subst_ok_map (n r : Str) (hbr : braceFreeB r = true) (ps : List TPiece)
    (h : ∀ p ∈ ps, ∀ name ∈ templateTokenNames, pieceOKB name p = true) :
    ∀ p ∈ ps.map (substPiece n r), ∀ name ∈ templateTokenNames,
      pieceOKB name p = true := by
  intro p hp name hname
  rcases List.mem_map.mp hp with ⟨q, hq, rfl⟩
  exact subst_preserves_ok n r name hbr q (h q hq name hname)

theorem default_pieces_ok :
    ∀ p ∈ defaultTemplatePieces, ∀ name ∈ templateTokenNames,
      pieceOKB name p = true := by decide

theorem subst_default (v1 v2 v3 v4 v5 v6 v7 v8 v9 v10 v11 v12 : Str) :
    (((((((((((defaultTemplatePieces.map
      (substPiece ("title".toList) v1)).map
      (substPiece ("author".toList) v2)).map
      (substPiece ("pages".toList) v3)).map
      (substPiece ("cover".toList) v4)).map
      (substPiece ("publisher".toList) v5)).map
      (substPiece ("translator".toList) v6)).map
      (substPiece ("datepublished".toList) v7)).map
      (substPiece ("ISBN".toList) v8)).map
      (substPiece ("url".toList) v9)).map
      (substPiece ("language".toList) v10)).map
      (substPiece ("description".toList) v11)).map
      (substPiece ("summary".toList) v12)
      = finalPieces v1 v2 v3 v4 v5 v6 v7 v8 v9 v10 v11 v12 := by
  rfl

theorem braceFree_no_token (s name : Str) (hs : braceFreeB s = true) :
    listContains s (tok name) = false := by
  induction s with
  | nil => rfl
  | cons c cs ih =>
    have hc : c ≠ lbCh := by
      simp only [braceFreeB, List.all_cons, Bool.and_eq_true, decide_eq_true_eq] at hs
      exact hs.1.1
    have hcs : braceFreeB cs = true := by
      simp only [braceFreeB, List.all_cons, Bool.and_eq_true] at hs
      exact hs.2
    show ((tok name).isPrefixOf (c :: cs) || anyPos (fun r => (tok name).isPrefixOf r) cs)
      = false
    rw [show (tok name).isPrefixOf (c :: cs) = (lbCh == c && (lbCh :: name ++ [rbCh, rbCh]).isPrefixOf cs) from rfl]
    have : (lbCh == c) = false := by
      simp [Ne.symm hc]
    rw [this, Bool.false_and, Bool.false_or]
    exact ih hcs

theorem render_braceFree (ps : List TPiece)
    (h : ∀ p ∈ ps, braceFreeB (renderPiece p) = true) :
    braceFreeB (render ps) = true := by
  induction ps with
  | nil => rfl
  | cons p ps ih =>
    rw [render_cons]
    show (renderPiece p ++ render ps).all _ = true
    rw [List.all_append, Bool.and_eq_true]
    exact ⟨h p (List.mem_cons_self p ps),
      ih fun q hq => h q (List.mem_cons_of_mem p hq)⟩


/-- C7 (amended): if every field value of the record is free of brace and
dollar characters, then substituting the record into the default template
(which contains all twelve placeholder tokens; `pages` is substituted raw,
every other field through `escapeYamlString`) leaves no placeholder token
in the output; and `escapeYamlString` always yields a string safe inside a
double-quoted YAML scalar (no raw newline, carriage return or unescaped
quote, every backslash consuming a following character). -/
theorem claim7_template_round_trip
    (title author pages cover publisher translator datepublished isbn
      urlv lang description summary : Str)
    (hv : ([title, author, pages, cover, publisher, translator, datepublished,
            isbn, urlv, lang, description, summary].all
        (fun v => braceFreeB v && dollarFreeB v)) = true) :
    (∀ name ∈ templateTokenNames,
        listContains
          (applyTemplate title author pages cover publisher translator
            datepublished isbn urlv lang description summary defaultTemplate)
          (tok name) = false) ∧
      (∀ v : Str, yamlSafeB (escapeYamlString v) = true) := by
  simp only [List.all_cons, List.all_nil, Bool.and_eq_true, Bool.and_true] at hv
  obtain ⟨⟨hb1, hd1⟩, ⟨hb2, hd2⟩, ⟨hb3, hd3⟩, ⟨hb4, hd4⟩, ⟨hb5, hd5⟩, ⟨hb6, hd6⟩,
    ⟨hb7, hd7⟩, ⟨hb8, hd8⟩, ⟨hb9, hd9⟩, ⟨hb10, hd10⟩, ⟨hb11, hd11⟩, hb12, hd12⟩ := hv
  have hbr1 := esc_braceFree title hb1
  have hdr1 := esc_dollarFree title hd1
  have hbr2 := esc_braceFree author hb2
  have hdr2 := esc_dollarFree author hd2
  have hbr4 := esc_braceFree cover hb4
  have hdr4 := esc_dollarFree cover hd4
  have hbr5 := esc_braceFree publisher hb5
  have hdr5 := esc_dollarFree publisher hd5
  have hbr6 := esc_braceFree translator hb6
  have hdr6 := esc_dollarFree translator hd6
  have hbr7 := esc_braceFree datepublished hb7
  have hdr7 := esc_dollarFree datepublished hd7
  have hbr8 := esc_braceFree isbn hb8
  have hdr8 := esc_dollarFree isbn hd8
  have hbr9 := esc_braceFree urlv hb9
  have hdr9 := esc_dollarFree urlv hd9
  have hbr10 := esc_braceFree lang hb10
  have hdr10 := esc_dollarFree lang hd10
  have hbr11 := esc_braceFree description hb11
  have hdr11 := esc_dollarFree description hd11
  have hbr12 := esc_braceFree summary hb12
  have hdr12 := esc_dollarFree summary hd12
  have H0 := default_pieces_ok
  have H1 := subst_ok_map ("title".toList) (escapeYamlString title) hbr1 _ H0
  have H2 := subst_ok_map ("author".toList) (escapeYamlString author) hbr2 _ H1
  have H3 := subst_ok_map ("pages".toList) pages hb3 _ H2
  have H4 := subst_ok_map ("cover".toList) (escapeYamlString cover) hbr4 _ H3
  have H5 := subst_ok_map ("publisher".toList) (escapeYamlString publisher) hbr5 _ H4
  have H6 := subst_ok_map ("translator".toList) (escapeYamlString translator) hbr6 _ H5
  have H7 := subst_ok_map ("datepublished".toList) (escapeYamlString datepublished) hbr7 _ H6
  have H8 := subst_ok_map ("ISBN".toList) (escapeYamlString isbn) hbr8 _ H7
  have H9 := subst_ok_map ("url".toList) (escapeYamlString urlv) hbr9 _ H8
  have H10 := subst_ok_map ("language".toList) (escapeYamlString lang) hbr10 _ H9
  have H11 := subst_ok_map ("description".toList) (escapeYamlString description) hbr11 _ H10
  have e1 := replaceAll_pieces ("title".toList) (escapeYamlString title) hdr1
    defaultTemplatePieces (fun p hp => H0 p hp ("title".toList) (by decide))
  have e2 := replaceAll_pieces ("author".toList) (escapeYamlString author) hdr2
    _ (fun p hp => H1 p hp ("author".toList) (by decide))
  have e3 := replaceAll_pieces ("pages".toList) pages hd3
    _ (fun p hp => H2 p hp ("pages".toList) (by decide))
  have e4 := replaceAll_pieces ("cover".toList) (escapeYamlString cover) hdr4
    _ (fun p hp => H3 p hp ("cover".toList) (by decide))
  have e5 := replaceAll_pieces ("publisher".toList) (escapeYamlString publisher) hdr5
    _ (fun p hp => H4 p hp ("publisher".toList) (by decide))
  have e6 := replaceAll_pieces ("translator".toList) (escapeYamlString translator) hdr6
    _ (fun p hp => H5 p hp ("translator".toList) (by decide))
  have e7 := replaceAll_pieces ("datepublished".toList) (escapeYamlString datepublished) hdr7
    _ (fun p hp => H6 p hp ("datepublished".toList) (by decide))
  have e8 := replaceAll_pieces ("ISBN".toList) (escapeYamlString isbn) hdr8
    _ (fun p hp => H7 p hp ("ISBN".toList) (by decide))
  have e9 := replaceAll_pieces ("url".toList) (escapeYamlString urlv) hdr9
    _ (fun p hp => H8 p hp ("url".toList) (by decide))
  have e10 := replaceAll_pieces ("language".toList) (escapeYamlString lang) hdr10
    _ (fun p hp => H9 p hp ("language".toList) (by decide))
  have e11 := replaceAll_pieces ("description".toList) (escapeYamlString description) hdr11
    _ (fun p hp => H10 p hp ("description".toList) (by decide))
  have e12 := replaceAll_pieces ("summary".toList) (escapeYamlString summary) hdr12
    _ (fun p hp => H11 p hp ("summary".toList) (by decide))
  refine ⟨?_, fun v => escapeYaml_safe v⟩
  intro name hname
  simp only [applyTemplate]
  rw [show defaultTemplate = render defaultTemplatePieces from rfl]
  rw [e1, e2, e3, e4, e5, e6, e7, e8, e9, e10, e11, e12]
  rw [subst_default]
  refine braceFree_no_token _ name (render_braceFree _ ?_)
  intro p hp
  simp [finalPieces] at hp
  rcases hp with rfl|rfl|rfl|rfl|rfl|rfl|rfl|rfl|rfl|rfl|rfl|rfl|rfl|rfl|rfl|rfl|rfl|rfl|rfl|rfl|rfl|rfl|rfl|rfl|rfl <;>
    simp only [renderPiece] <;> first | decide | assumption


/-- C7 counterexample to the unamended claim: a record whose `summary`
field is the literal string "{{title}}" (written via `tok` to avoid brace
literals) leaves an unresolved title token in the output of the
replacement chain, because the title pass runs first and nothing
re-examines text spliced in by a later pass. -/
theorem claim7_unresolved_token_cex :
    listContains
      (applyTemplate [] [] [] [] [] [] [] [] [] [] [] (tok ("title".toList))
        defaultTemplate)
      (tok ("title".toList)) = true := by decide

/-- Witness for C7 at a concrete record containing quotes, backslashes and
newlines in its fields. -/
theorem claim7_template_round_trip_witness :
    ((["A \"quoted\" title\\with\nnewline".toList, "Jane Doe".toList,
       "320".toList, "https://x/y.jpg".toList, "Pub \"Co\"".toList,
       "".toList, "2021-01-02".toList, "9780134685991".toList,
       "https://example.com/b".toList, "en".toList,
       "Line one\r\nline two \\ done".toList, "A short summary".toList].all
        (fun v => braceFreeB v && dollarFreeB v)) = true) ∧
    ((∀ name ∈ templateTokenNames,
        listContains
          (applyTemplate ("A \"quoted\" title\\with\nnewline".toList)
            ("Jane Doe".toList) ("320".toList) ("https://x/y.jpg".toList)
            ("Pub \"Co\"".toList) ("".toList) ("2021-01-02".toList)
            ("9780134685991".toList) ("https://example.com/b".toList)
            ("en".toList) ("Line one\r\nline two \\ done".toList)
            ("A short summary".toList) defaultTemplate)
          (tok name) = false) ∧
      (∀ v : Str, yamlSafeB (escapeYamlString v) = true)) :=
  ⟨by decide,
   claim7_template_round_trip ("A \"quoted\" title\\with\nnewline".toList)
     ("Jane Doe".toList) ("320".toList) ("https://x/y.jpg".toList)
     ("Pub \"Co\"".toList) ("".toList) ("2021-01-02".toList)
     ("9780134685991".toList) ("https://example.com/b".toList)
     ("en".toList) ("Line one\r\nline two \\ done".toList)
     ("A short summary".toList) (by decide)⟩
